import Mathlib

/-!
Verification of the video-analytics pipeline: shallow embedding of the
tracker (BoTSORTTracker), the per-frame decision logic of `detect.py` and
`local_script/main.py`, the event cooldown gates, the cosine-similarity
routines and the duplicate-registration checker, together with theorems
settling the specification claims.

Numeric conventions: Python floats on box coordinates, timestamps and
thresholds are modelled as exact rationals (ℚ); the face-embedding
similarity routines, which use a square root, are modelled over ℝ.
-/

set_option synthInstance.maxSize 400
set_option maxRecDepth 4000

namespace VideoAnalytics

/-- Axis-aligned box `(x1, y1, x2, y2)`, as used throughout the sources. -/
structure Box where
  x1 : ℚ
  y1 : ℚ
  x2 : ℚ
  y2 : ℚ
deriving Repr, DecidableEq

instance : Inhabited Box := ⟨⟨0, 0, 0, 0⟩⟩

/-- `box_area` of `BoTSORTTracker._iou_batch`: `(box[2]-box[0]) * (box[3]-box[1])`. -/
def box_area (b : Box) : ℚ := (b.x2 - b.x1) * (b.y2 - b.y1)

/-- One entry of the IoU matrix of `BoTSORTTracker._iou_batch`: clip the
intersection width and height at 0, and divide by the union only when the
union is positive (otherwise the entry stays at its initialised value 0). -/
def iou (a b : Box) : ℚ :=
  let xx1 := max a.x1 b.x1
  let yy1 := max a.y1 b.y1
  let xx2 := min a.x2 b.x2
  let yy2 := min a.y2 b.y2
  let w := max 0 (xx2 - xx1)
  let h := max 0 (yy2 - yy1)
  let intersection := w * h
  let union := box_area a + box_area b - intersection
  if 0 < union then intersection / union else 0

/-- The full IoU matrix of `BoTSORTTracker._iou_batch`, row `i` for
`boxes_a[i]`, column `j` for `boxes_b[j]`. -/
def iou_batch (boxesA boxesB : List Box) : List (List ℚ) :=
  boxesA.map (fun a => boxesB.map (fun b => iou a b))

/-- The (possibly negative) union term appearing in `_iou_batch`. -/
def iouUnion (a b : Box) : ℚ :=
  box_area a + box_area b -
    max 0 (min a.x2 b.x2 - max a.x1 b.x1) * max 0 (min a.y2 b.y2 - max a.y1 b.y1)

lemma iou_eq_union_cases (a b : Box) :
    iou a b = if 0 < iouUnion a b then
      (max 0 (min a.x2 b.x2 - max a.x1 b.x1) * max 0 (min a.y2 b.y2 - max a.y1 b.y1))
        / iouUnion a b
    else 0 := by
  simp only [iou, iouUnion]

lemma intersection_nonneg (a b : Box) :
    0 ≤ max 0 (min a.x2 b.x2 - max a.x1 b.x1) * max 0 (min a.y2 b.y2 - max a.y1 b.y1) := by
  exact mul_nonneg (le_max_left _ _) (le_max_left _ _)

/-- If the clipped intersection is positive, it is bounded by either box's area. -/
lemma intersection_le_areas (a b : Box)
    (hpos : 0 < max 0 (min a.x2 b.x2 - max a.x1 b.x1) * max 0 (min a.y2 b.y2 - max a.y1 b.y1)) :
    max 0 (min a.x2 b.x2 - max a.x1 b.x1) * max 0 (min a.y2 b.y2 - max a.y1 b.y1) ≤ box_area a ∧
    max 0 (min a.x2 b.x2 - max a.x1 b.x1) * max 0 (min a.y2 b.y2 - max a.y1 b.y1) ≤ box_area b := by
  set w := max 0 (min a.x2 b.x2 - max a.x1 b.x1) with hw
  set h := max 0 (min a.y2 b.y2 - max a.y1 b.y1) with hh
  have hw0 : 0 ≤ w := le_max_left _ _
  have hh0 : 0 ≤ h := le_max_left _ _
  have hwpos : 0 < w := by
    rcases lt_or_eq_of_le hw0 with h' | h'
    · exact h'
    · exact absurd hpos (by rw [← h', zero_mul]; exact lt_irrefl 0)
  have hhpos : 0 < h := by
    rcases lt_or_eq_of_le hh0 with h' | h'
    · exact h'
    · exact absurd hpos (by rw [← h', mul_zero]; exact lt_irrefl 0)
  have hdw : 0 < min a.x2 b.x2 - max a.x1 b.x1 := by
    by_contra hle
    push_neg at hle
    rw [hw] at hwpos
    rw [max_eq_left hle] at hwpos
    exact lt_irrefl 0 hwpos
  have hdh : 0 < min a.y2 b.y2 - max a.y1 b.y1 := by
    by_contra hle
    push_neg at hle
    rw [hh] at hhpos
    rw [max_eq_left hle] at hhpos
    exact lt_irrefl 0 hhpos
  have hweq : w = min a.x2 b.x2 - max a.x1 b.x1 := by
    rw [hw]; exact max_eq_right (le_of_lt hdw)
  have hheq : h = min a.y2 b.y2 - max a.y1 b.y1 := by
    rw [hh]; exact max_eq_right (le_of_lt hdh)
  have hwa : w ≤ a.x2 - a.x1 := by
    rw [hweq]; exact sub_le_sub (min_le_left _ _) (le_max_left _ _)
  have hwb : w ≤ b.x2 - b.x1 := by
    rw [hweq]; exact sub_le_sub (min_le_right _ _) (le_max_right _ _)
  have hha : h ≤ a.y2 - a.y1 := by
    rw [hheq]; exact sub_le_sub (min_le_left _ _) (le_max_left _ _)
  have hhb : h ≤ b.y2 - b.y1 := by
    rw [hheq]; exact sub_le_sub (min_le_right _ _) (le_max_right _ _)
  constructor
  · calc w * h ≤ (a.x2 - a.x1) * (a.y2 - a.y1) :=
        mul_le_mul hwa hha hh0 (le_trans hw0 hwa)
      _ = box_area a := rfl
  · calc w * h ≤ (b.x2 - b.x1) * (b.y2 - b.y1) :=
        mul_le_mul hwb hhb hh0 (le_trans hw0 hwb)
      _ = box_area b := rfl

/-- Every IoU value is nonnegative and at most 1. -/
lemma iou_mem_unit (a b : Box) : 0 ≤ iou a b ∧ iou a b ≤ 1 := by
  rw [iou_eq_union_cases]
  by_cases hu : 0 < iouUnion a b
  · rw [if_pos hu]
    refine ⟨div_nonneg (intersection_nonneg a b) (le_of_lt hu), ?_⟩
    rw [div_le_one hu]
    by_cases hip : 0 < max 0 (min a.x2 b.x2 - max a.x1 b.x1) * max 0 (min a.y2 b.y2 - max a.y1 b.y1)
    · have := intersection_le_areas a b hip
      simp only [iouUnion]
      linarith [this.1, this.2, hip]
    · push_neg at hip
      exact le_trans hip (le_of_lt hu)
  · rw [if_neg hu]
    exact ⟨le_refl 0, zero_le_one⟩

/-- IoU is symmetric in its two box arguments. -/
lemma iou_comm (a b : Box) : iou a b = iou b a := by
  simp only [iou, box_area]
  rw [max_comm a.x1 b.x1, max_comm a.y1 b.y1, min_comm a.x2 b.x2, min_comm a.y2 b.y2]
  ring_nf

/-- When the union term is not positive, the matrix entry stays 0. -/
lemma iou_of_union_nonpos (a b : Box) (h : ¬ 0 < iouUnion a b) : iou a b = 0 := by
  rw [iou_eq_union_cases, if_neg h]

/-- C10: for all box lists, including boxes with zero or negative
width/height, the IoU matrix computation is total: every entry is a defined
value in `[0, 1]`, a pair whose union area is not positive yields entry `0`
with no division by zero, and the underlying IoU value is symmetric in its
two box arguments. -/
theorem claim_C10_iou_batch_total (boxesA boxesB : List Box) :
    (∀ row ∈ iou_batch boxesA boxesB, ∀ v ∈ row, 0 ≤ v ∧ v ≤ 1) ∧
    (∀ a b : Box, ¬ 0 < iouUnion a b → iou a b = 0) ∧
    (∀ a b : Box, iou a b = iou b a) := by
  refine ⟨?_, iou_of_union_nonpos, iou_comm⟩
  intro row hrow v hv
  simp only [iou_batch, List.mem_map] at hrow
  obtain ⟨a, _, rfl⟩ := hrow
  simp only [List.mem_map] at hv
  obtain ⟨b, _, rfl⟩ := hv
  exact iou_mem_unit a b

/-!
## Event cooldown gate

`detect.py` gates each log kind on a per-track timestamp: the event is
forwarded only when `timestamp - p_state[...] > cooldown`, in which case the
stored timestamp is updated; otherwise nothing is sent and the timestamp is
left unchanged.  `is_within_dedup_window` is the Base-version predicate used
by `video_processor.py` to suppress detections inside the window.
-/

/-- The cooldown gate pattern of `detect.py` (used with `last_log` /
`LOG_COOLDOWN` and `last_phone_log` / `PHONE_ALERT_COOLDOWN`): returns
whether the event is forwarded together with the updated stored timestamp. -/
def logGate (lastLog t cooldown : ℚ) : Bool × ℚ :=
  if cooldown < t - lastLog then (true, t) else (false, lastLog)

/-- `is_within_dedup_window` from `Base version/.../utils/helpers.py`:
true (skip the event) when the time since the last detection is below the
window. -/
def is_within_dedup_window (lastDetection currentTime windowSeconds : ℚ) : Bool :=
  decide (currentTime - lastDetection < windowSeconds)

/-- C6: an event fired while `now - last` is below the cooldown is
suppressed, leaving the stored timestamp unchanged; once the cooldown has
elapsed it is forwarded and the timestamp is updated; hence a second
identical event within the window is suppressed and one fired immediately
after the window is allowed.  `is_within_dedup_window` decides exactly the
"within window" condition. -/
theorem claim_C6_cooldown_gate (last t cooldown : ℚ) :
    (t - last < cooldown → logGate last t cooldown = (false, last)) ∧
    (cooldown < t - last → logGate last t cooldown = (true, t)) ∧
    (is_within_dedup_window last t cooldown = true ↔ t - last < cooldown) ∧
    (∀ t1 t2 : ℚ, cooldown < t1 - last → t2 - t1 < cooldown →
      logGate (logGate last t1 cooldown).2 t2 cooldown = (false, t1)) ∧
    (∀ t1 t2 : ℚ, cooldown < t1 - last → cooldown < t2 - t1 →
      logGate (logGate last t1 cooldown).2 t2 cooldown = (true, t2)) := by
  refine ⟨?_, ?_, ?_, ?_, ?_⟩
  · intro h
    rw [logGate, if_neg]
    intro hc
    linarith
  · intro h
    rw [logGate, if_pos h]
  · simp [is_within_dedup_window]
  · intro t1 t2 h1 h2
    have hs : (logGate last t1 cooldown).2 = t1 := by rw [logGate, if_pos h1]
    rw [hs, logGate, if_neg]
    intro hc
    linarith
  · intro t1 t2 h1 h2
    have hs : (logGate last t1 cooldown).2 = t1 := by rw [logGate, if_pos h1]
    rw [hs, logGate, if_pos h2]

/-- Witness for C6 at concrete inputs (`cooldown = 30`). -/
theorem claim_C6_cooldown_gate_witness :
    logGate 0 (10 : ℚ) 30 = (false, 0) ∧
    logGate 0 (40 : ℚ) 30 = (true, 40) ∧
    logGate (logGate 0 (40 : ℚ) 30).2 50 30 = (false, 40) ∧
    logGate (logGate 0 (40 : ℚ) 30).2 80 30 = (true, 80) :=
  ⟨(claim_C6_cooldown_gate 0 10 30).1 (by norm_num),
   (claim_C6_cooldown_gate 0 40 30).2.1 (by norm_num),
   (claim_C6_cooldown_gate 0 0 30).2.2.2.1 40 50 (by norm_num) (by norm_num),
   (claim_C6_cooldown_gate 0 0 30).2.2.2.2 40 80 (by norm_num) (by norm_num)⟩

/-!
## `detect.py` per-track frame processing

For each tracked person box still present in the frame, `detect.py` runs:
face recognition (only while the stored name is "Unknown"), the
unauthorized decision with its two grace periods, and phone-overlap
detection.  The external detector and recognizer are oracles: whether the
crop is usable, whether faces were found, and the name returned by
`identify_face` arrive as inputs.
-/

/-- Configured constants of `detect.py`. -/
def LOG_COOLDOWN : ℚ := 30

def PHONE_ALERT_COOLDOWN : ℚ := 10

def UNAUTHORIZED_FACE_GRACE : ℚ := 3

def UNAUTHORIZED_NO_FACE_GRACE : ℚ := 15

/-- The `p_state` record held in `TrackerState.person_map` of `detect.py`. -/
structure DTrack where
  name : String
  firstSeen : ℚ
  lastSeen : ℚ
  lastLog : ℚ
  lastPhoneLog : ℚ
  faceAttempts : ℕ
  hasFaceSeen : Bool
deriving Repr, DecidableEq

/-- Fresh `p_state` as initialised for a new track id at time `t`. -/
def DTrack.init (t : ℚ) : DTrack :=
  { name := "Unknown", firstSeen := t, lastSeen := t, lastLog := 0,
    lastPhoneLog := 0, faceAttempts := 0, hasFaceSeen := false }

/-- Per-frame inputs for one tracked person in `detect.py`: the timestamp,
whether the person crop passed the size check, whether `app.get` returned
faces, the name `identify_face` produced for the largest face, the person
box and the phone boxes of the frame. -/
structure DInput where
  t : ℚ
  cropOk : Bool
  facesFound : Bool
  identResult : String
  bbox : Box
  phones : List Box
deriving Repr, DecidableEq

/-- Events sent to the log by `detect.py`'s per-track processing. -/
inductive DEvent where
  | entry (name : String)
  | unauthorized
  | phoneDetected
deriving Repr, DecidableEq

/-- Python `int()` truncation toward zero. -/
def pyInt (q : ℚ) : ℤ := if q < 0 then ⌈q⌉ else ⌊q⌋

/-- The phone-overlap test of `detect.py`: the phone box center (computed
from the `int`-truncated corners) lies strictly inside the `int`-truncated
person box. -/
def centerInside (personBox phoneBox : Box) : Bool :=
  let px1 := pyInt personBox.x1
  let py1 := pyInt personBox.y1
  let px2 := pyInt personBox.x2
  let py2 := pyInt personBox.y2
  let phCx : ℚ := ((pyInt phoneBox.x1 : ℚ) + (pyInt phoneBox.x2 : ℚ)) / 2
  let phCy : ℚ := ((pyInt phoneBox.y1 : ℚ) + (pyInt phoneBox.y2 : ℚ)) / 2
  decide ((px1 : ℚ) < phCx ∧ phCx < (px2 : ℚ) ∧ (py1 : ℚ) < phCy ∧ phCy < (py2 : ℚ))

/-- The face-recognition branch of `detect.py` (lines 211-241): runs only
while the stored name is "Unknown" and the crop and detector produced
faces; sets `has_face_seen`, adopts a recognised name (logging `entry`
subject to the cooldown), or else counts a failed attempt. -/
def dFaceStage (stA : DTrack) (inp : DInput) : DTrack × List DEvent :=
  if stA.name = "Unknown" ∧ inp.cropOk = true ∧ inp.facesFound = true then
    if inp.identResult ≠ "Unknown" then
      if (logGate stA.lastLog inp.t LOG_COOLDOWN).1 then
        ({ stA with hasFaceSeen := true, name := inp.identResult,
                    lastLog := (logGate stA.lastLog inp.t LOG_COOLDOWN).2 },
         [DEvent.entry inp.identResult])
      else ({ stA with hasFaceSeen := true, name := inp.identResult }, [])
    else ({ stA with hasFaceSeen := true, faceAttempts := stA.faceAttempts + 1 }, [])
  else (stA, [])

/-- The unauthorized-flag computation of `detect.py` (lines 249-256). -/
def dIsUnauthorized (st1 : DTrack) (t : ℚ) : Bool :=
  if st1.name = "Unknown" then
    if st1.hasFaceSeen then decide (UNAUTHORIZED_FACE_GRACE < t - st1.firstSeen)
    else decide (UNAUTHORIZED_NO_FACE_GRACE < t - st1.firstSeen)
  else false

def dUnauthStage (st1 : DTrack) (inp : DInput) : DTrack × List DEvent :=
  if dIsUnauthorized st1 inp.t then
    if (logGate st1.lastLog inp.t LOG_COOLDOWN).1 then
      ({ st1 with lastLog := (logGate st1.lastLog inp.t LOG_COOLDOWN).2 },
       [DEvent.unauthorized])
    else (st1, [])
  else (st1, [])

/-- The phone-overlap branch of `detect.py` (lines 266-286). -/
def dPhoneStage (st2 : DTrack) (inp : DInput) : DTrack × List DEvent :=
  if inp.phones.any (fun ph => centerInside inp.bbox ph) then
    if (logGate st2.lastPhoneLog inp.t PHONE_ALERT_COOLDOWN).1 then
      ({ st2 with lastPhoneLog := (logGate st2.lastPhoneLog inp.t PHONE_ALERT_COOLDOWN).2 },
       [DEvent.phoneDetected])
    else (st2, [])
  else (st2, [])

/-- One iteration of the per-track body of `detect.py`'s main loop
(lines 196-286): update `last_seen`, run the face recognition branch while
the name is "Unknown", evaluate the unauthorized decision, then phone
detection.  Returns the updated `p_state` and the events logged. -/
def dStep (st0 : DTrack) (inp : DInput) : DTrack × List DEvent :=
  ((dPhoneStage (dUnauthStage (dFaceStage { st0 with lastSeen := inp.t } inp).1 inp).1 inp).1,
   (dFaceStage { st0 with lastSeen := inp.t } inp).2 ++
     (dUnauthStage (dFaceStage { st0 with lastSeen := inp.t } inp).1 inp).2 ++
     (dPhoneStage (dUnauthStage (dFaceStage { st0 with lastSeen := inp.t } inp).1 inp).1 inp).2)

lemma dFaceStage_lastPhoneLog (st : DTrack) (inp : DInput) :
    (dFaceStage st inp).1.lastPhoneLog = st.lastPhoneLog := by
  rw [dFaceStage]
  split_ifs <;> rfl

lemma dUnauthStage_lastPhoneLog (st : DTrack) (inp : DInput) :
    (dUnauthStage st inp).1.lastPhoneLog = st.lastPhoneLog := by
  rw [dUnauthStage]
  split_ifs <;> rfl

lemma dFaceStage_no_phone_event (st : DTrack) (inp : DInput) :
    DEvent.phoneDetected ∉ (dFaceStage st inp).2 := by
  rw [dFaceStage]
  split_ifs <;> simp

lemma dUnauthStage_no_phone_event (st : DTrack) (inp : DInput) :
    DEvent.phoneDetected ∉ (dUnauthStage st inp).2 := by
  rw [dUnauthStage]
  split_ifs <;> simp

lemma dPhoneStage_spec (st : DTrack) (inp : DInput) :
    dPhoneStage st inp =
      if inp.phones.any (fun ph => centerInside inp.bbox ph) = true ∧
          PHONE_ALERT_COOLDOWN < inp.t - st.lastPhoneLog then
        ({ st with lastPhoneLog := inp.t }, [DEvent.phoneDetected])
      else (st, []) := by
  rw [dPhoneStage]
  by_cases hp : inp.phones.any (fun ph => centerInside inp.bbox ph) = true
  · rw [if_pos hp]
    by_cases hg : PHONE_ALERT_COOLDOWN < inp.t - st.lastPhoneLog
    · have hgate : logGate st.lastPhoneLog inp.t PHONE_ALERT_COOLDOWN = (true, inp.t) := by
        rw [logGate, if_pos hg]
      rw [hgate, if_pos rfl, if_pos ⟨hp, hg⟩]
    · have hgate : logGate st.lastPhoneLog inp.t PHONE_ALERT_COOLDOWN =
          (false, st.lastPhoneLog) := by
        rw [logGate, if_neg hg]
      rw [hgate, if_neg (fun hc : false = true => by exact absurd hc (by simp)),
        if_neg (fun hc => hg hc.2)]
  · rw [if_neg hp, if_neg (fun hc => hp hc.1)]

/-- C8: for every frame and person track, a phone box whose truncated center
lies strictly inside the person box yields a `phone_detected` event exactly
when the per-track phone cooldown has elapsed, with no condition on the
track's identity (`st.name` is universally quantified and absent from the
firing condition); firing updates `last_phone_log` to the frame time, so a
second firing within the cooldown window is impossible even if a phone is
present in every frame of the window. -/
theorem claim_C8_phone_detection (st : DTrack) (inp : DInput) :
    (DEvent.phoneDetected ∈ (dStep st inp).2 ↔
      inp.phones.any (fun ph => centerInside inp.bbox ph) = true ∧
        PHONE_ALERT_COOLDOWN < inp.t - st.lastPhoneLog) ∧
    (DEvent.phoneDetected ∈ (dStep st inp).2 →
      (dStep st inp).1.lastPhoneLog = inp.t) ∧
    (DEvent.phoneDetected ∉ (dStep st inp).2 →
      (dStep st inp).1.lastPhoneLog = st.lastPhoneLog) ∧
    (∀ inp2 : DInput, DEvent.phoneDetected ∈ (dStep st inp).2 →
      inp2.t - inp.t ≤ PHONE_ALERT_COOLDOWN →
      DEvent.phoneDetected ∉ (dStep (dStep st inp).1 inp2).2) := by
  have hpre : ∀ (s : DTrack) (i : DInput),
      (dUnauthStage (dFaceStage { s with lastSeen := i.t } i).1 i).1.lastPhoneLog
        = s.lastPhoneLog := by
    intro s i
    rw [dUnauthStage_lastPhoneLog, dFaceStage_lastPhoneLog]
  have hmem : ∀ (s : DTrack) (i : DInput),
      (DEvent.phoneDetected ∈ (dStep s i).2 ↔
        i.phones.any (fun ph => centerInside i.bbox ph) = true ∧
          PHONE_ALERT_COOLDOWN < i.t - s.lastPhoneLog) := by
    intro s i
    rw [dStep]
    simp only [List.mem_append]
    constructor
    · rintro ((h | h) | h)
      · exact absurd h (dFaceStage_no_phone_event _ _)
      · exact absurd h (dUnauthStage_no_phone_event _ _)
      · rw [dPhoneStage_spec, hpre] at h
        by_cases hc : i.phones.any (fun ph => centerInside i.bbox ph) = true ∧
            PHONE_ALERT_COOLDOWN < i.t - s.lastPhoneLog
        · exact hc
        · rw [if_neg hc] at h
          simp at h
    · intro hc
      right
      rw [dPhoneStage_spec, hpre, if_pos hc]
      simp
  have hlog : ∀ (s : DTrack) (i : DInput),
      (dStep s i).1.lastPhoneLog =
        (if i.phones.any (fun ph => centerInside i.bbox ph) = true ∧
            PHONE_ALERT_COOLDOWN < i.t - s.lastPhoneLog then i.t else s.lastPhoneLog) := by
    intro s i
    rw [dStep]
    simp only
    rw [dPhoneStage_spec, hpre]
    by_cases hc : i.phones.any (fun ph => centerInside i.bbox ph) = true ∧
        PHONE_ALERT_COOLDOWN < i.t - s.lastPhoneLog
    · rw [if_pos hc, if_pos hc]
    · rw [if_neg hc, if_neg hc]
      exact hpre s i
  refine ⟨hmem st inp, ?_, ?_, ?_⟩
  · intro h
    rw [hlog]
    rw [if_pos ((hmem st inp).1 h)]
  · intro h
    rw [hlog]
    rw [if_neg (fun hc => h ((hmem st inp).2 hc))]
  · intro inp2 hfire hwin
    rw [hmem]
    intro hc
    have h1 : (dStep st inp).1.lastPhoneLog = inp.t := by
      rw [hlog, if_pos ((hmem st inp).1 hfire)]
    rw [h1] at hc
    exact absurd hc.2 (not_lt.2 hwin)

/-- Witness for C8: phone box `(20,20,40,40)` has center `(30,30)`, inside
person box `(10,10,50,50)`; with `last_phone_log = 0` at `t = 100` the event
fires, and a frame at `t = 105` (within the 10-second cooldown) cannot fire
again. -/
theorem claim_C8_phone_detection_witness :
    (DEvent.phoneDetected ∈
      (dStep (DTrack.init 0)
        { t := 100, cropOk := false, facesFound := false, identResult := "Unknown",
          bbox := ⟨10, 10, 50, 50⟩, phones := [⟨20, 20, 40, 40⟩] }).2 ↔
      ([(⟨20, 20, 40, 40⟩ : Box)].any
          (fun ph => centerInside ⟨10, 10, 50, 50⟩ ph) = true ∧
        PHONE_ALERT_COOLDOWN < (100 : ℚ) - (DTrack.init 0).lastPhoneLog)) ∧
    ∀ inp2 : DInput, DEvent.phoneDetected ∈
        (dStep (DTrack.init 0)
          { t := 100, cropOk := false, facesFound := false, identResult := "Unknown",
            bbox := ⟨10, 10, 50, 50⟩, phones := [⟨20, 20, 40, 40⟩] }).2 →
      inp2.t - 100 ≤ PHONE_ALERT_COOLDOWN →
      DEvent.phoneDetected ∉
        (dStep (dStep (DTrack.init 0)
          { t := 100, cropOk := false, facesFound := false, identResult := "Unknown",
            bbox := ⟨10, 10, 50, 50⟩, phones := [⟨20, 20, 40, 40⟩] }).1 inp2).2 :=
  ⟨(claim_C8_phone_detection (DTrack.init 0) _).1,
   fun inp2 => (claim_C8_phone_detection (DTrack.init 0) _).2.2.2 inp2⟩

/-!
## `local_script/main.py` decision state machine

`VideoAnalyticsSystem.process_frame` keeps, per person track, a record with
the resolved name (`None` while identifying, a registered name once
authorized, `"Unknown"` once decided unknown) and an
`identification_complete` flag that stops all further face processing.
The external face detector and the backend matcher are oracles whose
per-frame answers arrive as inputs.
-/

/-- Configured constants of `VideoAnalyticsSystem.__init__`. -/
def face_detection_interval : ℕ := 10

def grace_period_frames : ℕ := 45

def min_face_attempts : ℕ := 5

/-- The per-track record of `VideoAnalyticsSystem.tracked_persons`. -/
structure PTrack where
  name : Option String
  logged : Bool
  confidence : Option ℚ
  framesTracked : ℕ
  attemptCount : ℕ
  faceDetectedCount : ℕ
  noFaceCount : ℕ
  identificationComplete : Bool
deriving Repr, DecidableEq

/-- Fresh record for a newly seen track id. -/
def PTrack.init : PTrack :=
  { name := none, logged := false, confidence := none, framesTracked := 0,
    attemptCount := 0, faceDetectedCount := 0, noFaceCount := 0,
    identificationComplete := false }

/-- A detection log sent to the backend by `api_client.log_person_detection`. -/
structure PEvent where
  personName : String
  isAuthorized : Bool
  confidence : Option ℚ
deriving Repr, DecidableEq

/-- Python truthiness of the `person_name` returned by the matcher:
`None` and the empty string are falsy. -/
def truthy : Option String → Bool
  | none => false
  | some s => decide (s ≠ "")

/-- The per-track body of `VideoAnalyticsSystem.process_frame`
(lines 82-160) for one tracked person: increment `frames_tracked`; while
identification is not complete, attempt face detection on the sampling
cadence; on a recognised face become authorized; on an unrecognised face,
or on no face, apply the two Unknown rules.  `facesFound` tells whether the
face detector returned faces, `matchName`/`matchConf` are the backend
matcher's answer for the largest face. -/
def processTrack (st0 : PTrack) (facesFound : Bool) (matchName : Option String)
    (matchConf : Option ℚ) : PTrack × List PEvent :=
  if st0.identificationComplete = false ∧
      (st0.framesTracked + 1) % face_detection_interval = 1 then
    if facesFound then
      if truthy matchName then
        ({ st0 with framesTracked := st0.framesTracked + 1,
                    attemptCount := st0.attemptCount + 1,
                    faceDetectedCount := st0.faceDetectedCount + 1,
                    name := some (matchName.getD ""), confidence := matchConf,
                    logged := true, identificationComplete := true },
         [⟨matchName.getD "", true, matchConf⟩])
      else
        if min_face_attempts ≤ st0.faceDetectedCount + 1 ∧
            grace_period_frames ≤ st0.framesTracked + 1 then
          ({ st0 with framesTracked := st0.framesTracked + 1,
                      attemptCount := st0.attemptCount + 1,
                      faceDetectedCount := st0.faceDetectedCount + 1,
                      name := some "Unknown", logged := true,
                      identificationComplete := true },
           [⟨"Unknown", false, none⟩])
        else
          ({ st0 with framesTracked := st0.framesTracked + 1,
                      attemptCount := st0.attemptCount + 1,
                      faceDetectedCount := st0.faceDetectedCount + 1 }, [])
    else
      if grace_period_frames * 2 ≤ st0.framesTracked + 1 ∧
          st0.faceDetectedCount = 0 then
        ({ st0 with framesTracked := st0.framesTracked + 1,
                    attemptCount := st0.attemptCount + 1,
                    noFaceCount := st0.noFaceCount + 1,
                    name := some "Unknown", logged := true,
                    identificationComplete := true },
         [⟨"Unknown", false, none⟩])
      else
        ({ st0 with framesTracked := st0.framesTracked + 1,
                    attemptCount := st0.attemptCount + 1,
                    noFaceCount := st0.noFaceCount + 1 }, [])
  else ({ st0 with framesTracked := st0.framesTracked + 1 }, [])

/-- Folding `processTrack` over a sequence of per-frame inputs. -/
def processRun (st : PTrack) : List (Bool × Option String × Option ℚ) → PTrack
  | [] => st
  | i :: rest => processRun (processTrack st i.1 i.2.1 i.2.2).1 rest

lemma processTrack_of_complete (st : PTrack) (f : Bool) (mn : Option String)
    (mc : Option ℚ) (h : st.identificationComplete = true) :
    processTrack st f mn mc =
      ({ st with framesTracked := st.framesTracked + 1 }, []) := by
  rw [processTrack, if_neg]
  intro hc
  rw [h] at hc
  exact absurd hc.1 (by simp)

lemma processRun_of_complete (st : PTrack)
    (inputs : List (Bool × Option String × Option ℚ))
    (h : st.identificationComplete = true) :
    (processRun st inputs).name = st.name ∧
    (processRun st inputs).identificationComplete = true := by
  induction inputs generalizing st with
  | nil => exact ⟨rfl, h⟩
  | cons i rest ih =>
    rw [processRun, processTrack_of_complete st i.1 i.2.1 i.2.2 h]
    exact ih _ h

lemma dFaceStage_name_of_known (st : DTrack) (inp : DInput)
    (h : st.name ≠ "Unknown") : (dFaceStage st inp).1.name = st.name := by
  rw [dFaceStage, if_neg]
  intro hc
  exact h hc.1

lemma dUnauthStage_name (st : DTrack) (inp : DInput) :
    (dUnauthStage st inp).1.name = st.name := by
  rw [dUnauthStage]
  split_ifs <;> rfl

lemma dPhoneStage_name (st : DTrack) (inp : DInput) :
    (dPhoneStage st inp).1.name = st.name := by
  rw [dPhoneStage]
  split_ifs <;> rfl

/-- In `detect.py` an already-assigned registered name is never changed. -/
lemma dStep_name_of_known (st : DTrack) (inp : DInput)
    (h : st.name ≠ "Unknown") : (dStep st inp).1.name = st.name := by
  rw [dStep]
  simp only
  rw [dPhoneStage_name, dUnauthStage_name,
    dFaceStage_name_of_known { st with lastSeen := inp.t } inp h]

/-- C4 as amended: in the `local_script` state machine, once
`identification_complete` is set (the track is Authorized or decided
Unknown) the stored verdict is never changed by any later frame; and in
`detect.py` a track that has been assigned a registered name never has its
name changed.  (The original claim fails for `detect.py`, where a track
already flagged unauthorized may later be re-identified: see the
counterexample.) -/
theorem claim_C4_terminal_states :
    (∀ (st : PTrack) (inputs : List (Bool × Option String × Option ℚ)),
      st.identificationComplete = true →
      (processRun st inputs).name = st.name ∧
      (processRun st inputs).identificationComplete = true) ∧
    (∀ (st : DTrack) (inp : DInput), st.name ≠ "Unknown" →
      (dStep st inp).1.name = st.name) :=
  ⟨fun st inputs h => processRun_of_complete st inputs h,
   fun st inp h => dStep_name_of_known st inp h⟩

/-- Witness for C4: a completed Unknown local-script track stays Unknown
over further frames, and a `detect.py` track named "Alice" keeps its name. -/
theorem claim_C4_terminal_states_witness :
    ((processRun
        { PTrack.init with name := some "Unknown", identificationComplete := true }
        [(true, some "Alice", some (9/10 : ℚ)), (false, none, none)]).name
      = some "Unknown" ∧
     (processRun
        { PTrack.init with name := some "Unknown", identificationComplete := true }
        [(true, some "Alice", some (9/10 : ℚ)), (false, none, none)]).identificationComplete
      = true) ∧
    (dStep { DTrack.init 0 with name := "Alice" }
        { t := 100, cropOk := true, facesFound := true, identResult := "Bob",
          bbox := ⟨0, 0, 1, 1⟩, phones := [] }).1.name = "Alice" :=
  ⟨claim_C4_terminal_states.1
      { PTrack.init with name := some "Unknown", identificationComplete := true }
      [(true, some "Alice", some (9/10 : ℚ)), (false, none, none)] rfl,
   claim_C4_terminal_states.2 { DTrack.init 0 with name := "Alice" }
      { t := 100, cropOk := true, facesFound := true, identResult := "Bob",
        bbox := ⟨0, 0, 1, 1⟩, phones := [] } (by decide)⟩

/-- C5 as amended: in the `local_script` machine the Unknown decision is
evaluated only on sampling frames (where `frames_tracked % interval = 1`)
and is further conditioned on this frame's face-detection outcome: with a
face detected but unrecognised, the track becomes Unknown and logs an
unauthorized detection exactly when `face_detected_count` (including this
frame) is at least `min_face_attempts` and `frames_tracked` is at least the
with-face grace period; with no face detected this frame, exactly when no
face was ever detected and `frames_tracked` is at least the without-face
grace period (twice, hence strictly longer than, the with-face one).  On
all other frames the track remains Identifying and nothing is emitted. -/
theorem claim_C5_unknown_decision (st : PTrack) (f : Bool) (mn : Option String)
    (mc : Option ℚ) (hc : st.identificationComplete = false) :
    ((st.framesTracked + 1) % face_detection_interval ≠ 1 →
      (processTrack st f mn mc).1.name = st.name ∧
      (processTrack st f mn mc).1.identificationComplete = false ∧
      (processTrack st f mn mc).2 = []) ∧
    ((st.framesTracked + 1) % face_detection_interval = 1 → truthy mn = false →
      (((processTrack st f mn mc).1.name = some "Unknown" ∧
          (processTrack st f mn mc).1.identificationComplete = true ∧
          (processTrack st f mn mc).2 = [⟨"Unknown", false, none⟩]) ↔
        ((f = true ∧ min_face_attempts ≤ st.faceDetectedCount + 1 ∧
            grace_period_frames ≤ st.framesTracked + 1) ∨
         (f = false ∧ st.faceDetectedCount = 0 ∧
            grace_period_frames * 2 ≤ st.framesTracked + 1)))) ∧
    grace_period_frames < grace_period_frames * 2 := by
  refine ⟨?_, ?_, by decide⟩
  · intro hmod
    rw [processTrack, if_neg]
    · exact ⟨rfl, hc, rfl⟩
    · intro hcond
      exact hmod hcond.2
  · intro hmod htr
    have htr' : ¬ truthy mn = true := by
      rw [htr]
      exact Bool.false_ne_true
    rw [processTrack, if_pos ⟨hc, hmod⟩]
    by_cases hf : f = true
    · rw [if_pos hf, if_neg htr']
      by_cases hcnd : min_face_attempts ≤ st.faceDetectedCount + 1 ∧
          grace_period_frames ≤ st.framesTracked + 1
      · rw [if_pos hcnd]
        constructor
        · intro _
          exact Or.inl ⟨hf, hcnd.1, hcnd.2⟩
        · intro _
          exact ⟨rfl, rfl, rfl⟩
      · rw [if_neg hcnd]
        constructor
        · intro h
          exact absurd h.2.1 (by simp [hc])
        · rintro (⟨_, h2, h3⟩ | ⟨hf', _, _⟩)
          · exact absurd ⟨h2, h3⟩ hcnd
          · rw [hf] at hf'
            exact absurd hf' (by simp)
    · rw [if_neg hf]
      have hf0 : f = false := by
        cases f with
        | true => exact absurd rfl hf
        | false => rfl
      by_cases hcnd : grace_period_frames * 2 ≤ st.framesTracked + 1 ∧
          st.faceDetectedCount = 0
      · rw [if_pos hcnd]
        constructor
        · intro _
          exact Or.inr ⟨hf0, hcnd.2, hcnd.1⟩
        · intro _
          exact ⟨rfl, rfl, rfl⟩
      · rw [if_neg hcnd]
        constructor
        · intro h
          exact absurd h.2.1 (by simp [hc])
        · rintro (⟨hf', _, _⟩ | ⟨_, h2, h3⟩)
          · exact absurd hf' hf
          · exact absurd ⟨h3, h2⟩ hcnd

/-- Witness for C5 (amended): an undecided track at `frames_tracked = 50`
with 4 faces seen, sampled this frame with an unrecognised face, becomes
Unknown (5 ≥ `min_face_attempts`, 51 ≥ `grace_period_frames`). -/
theorem claim_C5_unknown_decision_witness :
    ((processTrack
        { PTrack.init with framesTracked := 50, faceDetectedCount := 4 }
        true none none).1.name = some "Unknown" ∧
      (processTrack
        { PTrack.init with framesTracked := 50, faceDetectedCount := 4 }
        true none none).1.identificationComplete = true ∧
      (processTrack
        { PTrack.init with framesTracked := 50, faceDetectedCount := 4 }
        true none none).2 = [⟨"Unknown", false, none⟩]) :=
  ((claim_C5_unknown_decision
      { PTrack.init with framesTracked := 50, faceDetectedCount := 4 }
      true none none rfl).2.1 (by decide) rfl).2
    (Or.inl ⟨rfl, by decide, by decide⟩)

/-- Counterexample to C5 as stated: a still-undecided track that has seen a
face `min_face_attempts = 5` times and has `frames_tracked ≥ 45` (the
with-face grace period) — so the claim's condition (a) holds — receives a
sampled frame with no face visible: the code leaves it Identifying and
emits nothing, because the with-face rule only runs on frames where a face
is detected. -/
theorem claim_C5_counterexample :
    min_face_attempts ≤
      (processTrack
        { PTrack.init with framesTracked := 50, faceDetectedCount := 5 }
        false none none).1.faceDetectedCount ∧
    grace_period_frames ≤
      (processTrack
        { PTrack.init with framesTracked := 50, faceDetectedCount := 5 }
        false none none).1.framesTracked ∧
    (processTrack
      { PTrack.init with framesTracked := 50, faceDetectedCount := 5 }
      false none none).1.name = none ∧
    (processTrack
      { PTrack.init with framesTracked := 50, faceDetectedCount := 5 }
      false none none).1.identificationComplete = false ∧
    (processTrack
      { PTrack.init with framesTracked := 50, faceDetectedCount := 5 }
      false none none).2 = [] := by
  refine ⟨?_, ?_, ?_, ?_, ?_⟩ <;> decide

/-!
## `BoTSORTTracker` (local_script/tracking/tracker.py)

The tracker keeps an insertion-ordered map `tracks : {id: {bbox, hits,
age}}` (Python dicts preserve insertion order, and `update` iterates over
`list(self.tracks.keys())`), a monotone `next_id` counter and a frame
counter.  `update` greedily matches detections to tracks by IoU, updates
matched tracks, spawns tracks for unmatched detections, ages unmatched
tracks, purges tracks with `age > max_age`, and returns the tracks with
`hits >= min_hits`.
-/

/-- The per-id record stored in `BoTSORTTracker.tracks`. -/
structure TrackRec where
  bbox : Box
  hits : ℕ
  age : ℕ
deriving Repr, DecidableEq

/-- The mutable state of a `BoTSORTTracker` instance.  `tracks` is the
insertion-ordered dict, modelled as an association list with distinct
keys. -/
structure TrackerState where
  max_age : ℕ
  min_hits : ℕ
  iou_threshold : ℚ
  tracks : List (ℕ × TrackRec)
  next_id : ℕ
  frame_count : ℕ
deriving Repr, DecidableEq

/-- `BoTSORTTracker.__init__`. -/
def BoTSORTTracker.init (maxAge minHits : ℕ) (iouThreshold : ℚ) : TrackerState :=
  { max_age := maxAge, min_hits := minHits, iou_threshold := iouThreshold,
    tracks := [], next_id := 1, frame_count := 0 }

/-- One comparison of the scan `if iou_matrix[i, j] > max_iou` inside
`_match`: the running best is replaced only on a strict improvement. -/
def scanStep (iouM : ℕ → ℕ → ℚ) (acc : ℚ × Option (ℕ × ℕ)) (p : ℕ × ℕ) :
    ℚ × Option (ℕ × ℕ) :=
  if acc.1 < iouM p.1 p.2 then (iouM p.1 p.2, some p) else acc

/-- The nested iteration order of `_match`'s scan: every
`(i, j)` for `i` in `unmatched_dets` (outer) and `j` in `unmatched_tracks`
(inner). -/
def pairList : List ℕ → List ℕ → List (ℕ × ℕ)
  | [], _ => []
  | i :: is, uts => uts.map (fun j => (i, j)) ++ pairList is uts

/-- The inner scan of `_match`: running maximum starting at `0` with sentinel
`max_det = max_track = -1`, modelled as `none`. -/
def scanMax (iouM : ℕ → ℕ → ℚ) (uds uts : List ℕ) : ℚ × Option (ℕ × ℕ) :=
  (pairList uds uts).foldl (scanStep iouM) (0, none)

/-- The greedy matching loop of `_match`.  `fuel` bounds the iteration count
(each iteration removes one element from `uds`, so `uds.length` suffices);
the `none` result models the `ValueError` that `unmatched_dets.remove(-1)`
would raise when the scan found no positive IoU but the configured
threshold is not positive. -/
def greedyLoop (iouM : ℕ → ℕ → ℚ) (threshold : ℚ) :
    ℕ → List ℕ → List ℕ → List (ℕ × ℕ) →
    Option (List (ℕ × ℕ) × List ℕ × List ℕ)
  | fuel, uds, uts, acc =>
    if uds.isEmpty ∨ uts.isEmpty then some (acc.reverse, uds, uts)
    else
      match fuel with
      | 0 => none
      | fuel' + 1 =>
        match scanMax iouM uds uts with
        | (m, none) =>
          if m < threshold then some (acc.reverse, uds, uts) else none
        | (m, some (i, j)) =>
          if m < threshold then some (acc.reverse, uds, uts)
          else greedyLoop iouM threshold fuel' (uds.erase i) (uts.erase j) ((i, j) :: acc)

/-- `BoTSORTTracker._match`: returns `(matches, unmatched_detections,
unmatched_tracks)` as index lists into the two inputs. -/
def trackerMatch (threshold : ℚ) (detections tracks : List Box) :
    Option (List (ℕ × ℕ) × List ℕ × List ℕ) :=
  if detections.isEmpty then some ([], [], List.range tracks.length)
  else if tracks.isEmpty then some ([], List.range detections.length, [])
  else
    greedyLoop (fun i j => iou (detections.getD i default) (tracks.getD j default))
      threshold detections.length
      (List.range detections.length) (List.range tracks.length) []

/-- In-place update of the dict entry with key `tid` (Python
`self.tracks[track_id][...] = ...` preserves the key's position). -/
def updTrack (ts : List (ℕ × TrackRec)) (tid : ℕ) (f : TrackRec → TrackRec) :
    List (ℕ × TrackRec) :=
  ts.map (fun p => if p.1 = tid then (p.1, f p.2) else p)

/-- The new-track records appended for unmatched detections, ids counting
up from `n` (`self.next_id` incremented per creation). -/
def mkNewTracks (detections : List Box) : List ℕ → ℕ → List (ℕ × TrackRec)
  | [], _ => []
  | di :: rest, n =>
    (n, { bbox := detections.getD di default, hits := 1, age := 0 }) ::
      mkNewTracks detections rest (n + 1)

/-- `BoTSORTTracker.update`: returns the successor state together with the
returned `{track_id: tuple(map(int, bbox))}` mapping, or `none` when
`_match` raises. -/
def update (s : TrackerState) (detections : List Box) :
    Option (TrackerState × List (ℕ × (ℤ × ℤ × ℤ × ℤ))) :=
  let trackIds := s.tracks.map Prod.fst
  let trackBoxes := s.tracks.map (fun p => p.2.bbox)
  match trackerMatch s.iou_threshold detections trackBoxes with
  | none => none
  | some (ms, unmatchedDets, unmatchedTracks) =>
    let ts1 := ms.foldl (fun ts m =>
      updTrack ts (trackIds.getD m.2 0)
        (fun r => { bbox := detections.getD m.1 default, hits := r.hits + 1, age := 0 })) s.tracks
    let ts2 := ts1 ++ mkNewTracks detections unmatchedDets s.next_id
    let ts3 := unmatchedTracks.foldl (fun ts ti =>
      updTrack ts (trackIds.getD ti 0) (fun r => { r with age := r.age + 1 })) ts2
    let ts4 := ts3.filter (fun p => decide (p.2.age ≤ s.max_age))
    let active := (ts4.filter (fun p => decide (s.min_hits ≤ p.2.hits))).map
      (fun p => (p.1, (pyInt p.2.bbox.x1, pyInt p.2.bbox.y1,
                       pyInt p.2.bbox.x2, pyInt p.2.bbox.y2)))
    some ({ s with tracks := ts4,
                   next_id := s.next_id + unmatchedDets.length,
                   frame_count := s.frame_count + 1 }, active)

lemma mem_pairList : ∀ (uds uts : List ℕ) (p : ℕ × ℕ),
    p ∈ pairList uds uts ↔ p.1 ∈ uds ∧ p.2 ∈ uts
  | [], uts, p => by simp [pairList]
  | i :: is, uts, p => by
    obtain ⟨a, b⟩ := p
    simp only [pairList, List.mem_append, List.mem_map, List.mem_cons,
      mem_pairList is uts (a, b)]
    constructor
    · rintro (⟨j, hj, hje⟩ | ⟨h1, h2⟩)
      · obtain ⟨rfl, rfl⟩ := Prod.mk.injEq .. ▸ hje
        exact ⟨Or.inl rfl, hj⟩
      · exact ⟨Or.inr h1, h2⟩
    · rintro ⟨rfl | h1, h2⟩
      · exact Or.inl ⟨b, h2, rfl⟩
      · exact Or.inr ⟨h1, h2⟩

/-- The running-maximum scan reports either no improvement over the initial
accumulator, or the first pair attaining the final maximum. -/
lemma foldl_scanStep_cases (iouM : ℕ → ℕ → ℚ) :
    ∀ (L : List (ℕ × ℕ)) (acc : ℚ × Option (ℕ × ℕ)),
      (L.foldl (scanStep iouM) acc = acc ∧ ∀ p ∈ L, iouM p.1 p.2 ≤ acc.1) ∨
      (∃ L₁ p L₂, L = L₁ ++ p :: L₂ ∧
        L.foldl (scanStep iouM) acc = (iouM p.1 p.2, some p) ∧
        acc.1 < iouM p.1 p.2 ∧
        (∀ q ∈ L₁, iouM q.1 q.2 < iouM p.1 p.2) ∧
        (∀ q ∈ L₂, iouM q.1 q.2 ≤ iouM p.1 p.2))
  | [], acc => Or.inl ⟨rfl, by simp⟩
  | x :: L, acc => by
    rw [List.foldl_cons]
    by_cases hx : acc.1 < iouM x.1 x.2
    · have hstep : scanStep iouM acc x = (iouM x.1 x.2, some x) := by
        rw [scanStep, if_pos hx]
      rw [hstep]
      rcases foldl_scanStep_cases iouM L (iouM x.1 x.2, some x) with
        ⟨heq, hble⟩ | ⟨L₁, p, L₂, hsplit, heq, hlt, hbefore, hafter⟩
      · right
        exact ⟨[], x, L, by simp, heq, hx, by simp, fun q hq => hble q hq⟩
      · right
        refine ⟨x :: L₁, p, L₂, by rw [hsplit]; rfl, heq, lt_trans hx hlt, ?_, hafter⟩
        intro q hq
        rcases List.mem_cons.1 hq with rfl | hq'
        · exact hlt
        · exact hbefore q hq'
    · have hstep : scanStep iouM acc x = acc := by rw [scanStep, if_neg hx]
      rw [hstep]
      rcases foldl_scanStep_cases iouM L acc with
        ⟨heq, hble⟩ | ⟨L₁, p, L₂, hsplit, heq, hlt, hbefore, hafter⟩
      · left
        refine ⟨heq, ?_⟩
        intro q hq
        rcases List.mem_cons.1 hq with rfl | hq'
        · exact not_lt.1 hx
        · exact hble q hq'
      · right
        refine ⟨x :: L₁, p, L₂, by rw [hsplit]; rfl, heq, hlt, ?_, hafter⟩
        intro q hq
        rcases List.mem_cons.1 hq with rfl | hq'
        · exact lt_of_le_of_lt (not_lt.1 hx) hlt
        · exact hbefore q hq'

/-- When the scan ends with the `-1` sentinels, the running maximum is still
`0` and no pair improved on it. -/
lemma scanMax_none (iouM : ℕ → ℕ → ℚ) (uds uts : List ℕ) (m : ℚ)
    (h : scanMax iouM uds uts = (m, none)) :
    m = 0 ∧ ∀ i ∈ uds, ∀ j ∈ uts, iouM i j ≤ 0 := by
  rw [scanMax] at h
  rcases foldl_scanStep_cases iouM (pairList uds uts) (0, none) with
    ⟨heq, hble⟩ | ⟨L₁, p, L₂, hsplit, heq, hlt, hbefore, hafter⟩
  · rw [heq] at h
    obtain ⟨hm, -⟩ := Prod.mk.injEq .. ▸ h
    refine ⟨hm.symm, ?_⟩
    intro i hi j hj
    exact hble (i, j) ((mem_pairList uds uts (i, j)).2 ⟨hi, hj⟩)
  · rw [heq] at h
    obtain ⟨-, hcontra⟩ := Prod.mk.injEq .. ▸ h
    exact absurd hcontra (by simp)

/-- When the scan reports a pair, it is a pair of the two lists attaining the
maximum IoU among all remaining pairs, and it is the first such pair in the
scan order (every strictly earlier pair has strictly smaller IoU). -/
lemma scanMax_some (iouM : ℕ → ℕ → ℚ) (uds uts : List ℕ) (m : ℚ) (i j : ℕ)
    (h : scanMax iouM uds uts = (m, some (i, j))) :
    i ∈ uds ∧ j ∈ uts ∧ iouM i j = m ∧ 0 < m ∧
    (∀ a ∈ uds, ∀ b ∈ uts, iouM a b ≤ m) ∧
    ∃ L₁ L₂, pairList uds uts = L₁ ++ (i, j) :: L₂ ∧
      (∀ q ∈ L₁, iouM q.1 q.2 < m) ∧ (∀ q ∈ L₂, iouM q.1 q.2 ≤ m) := by
  rw [scanMax] at h
  rcases foldl_scanStep_cases iouM (pairList uds uts) (0, none) with
    ⟨heq, hble⟩ | ⟨L₁, p, L₂, hsplit, heq, hlt, hbefore, hafter⟩
  · rw [heq] at h
    obtain ⟨-, hcontra⟩ := Prod.mk.injEq .. ▸ h
    exact absurd hcontra (by simp)
  · rw [heq] at h
    obtain ⟨hm, hp⟩ := Prod.mk.injEq .. ▸ h
    obtain rfl : p = (i, j) := Option.some.injEq .. ▸ hp
    have hmem : (i, j) ∈ pairList uds uts := by
      rw [hsplit]
      exact List.mem_append.2 (Or.inr (List.mem_cons_self _ _))
    obtain ⟨hi, hj⟩ := (mem_pairList uds uts (i, j)).1 hmem
    refine ⟨hi, hj, hm, hm ▸ hlt, ?_, L₁, L₂, hsplit, fun q hq => hm ▸ hbefore q hq,
      fun q hq => hm ▸ hafter q hq⟩
    intro a ha b hb
    have hq : (a, b) ∈ pairList uds uts := (mem_pairList uds uts (a, b)).2 ⟨ha, hb⟩
    rw [hsplit] at hq
    rcases List.mem_append.1 hq with hq1 | hq2
    · exact le_of_lt (hm ▸ hbefore _ hq1)
    · rcases List.mem_cons.1 hq2 with heq2 | hq3
      · have hab := congrArg (fun q : ℕ × ℕ => iouM q.1 q.2) heq2
        simp only at hab
        rw [hab]
        exact le_of_eq hm
      · exact hm ▸ hafter _ hq3

/-- C3 as amended: the greedy matcher repeatedly selects, among the
still-unmatched (detection, track) pairs, one with maximum IoU — on ties the
first pair in scan order (ascending detection index, then ascending track
index), not the pair with larger detection area — and stops as soon as the
maximum falls below the configured threshold. -/
theorem claim_C3_greedy_matching (iouM : ℕ → ℕ → ℚ) (threshold : ℚ)
    (uds uts : List ℕ) :
    (∀ m i j, scanMax iouM uds uts = (m, some (i, j)) →
      i ∈ uds ∧ j ∈ uts ∧ iouM i j = m ∧
      (∀ a ∈ uds, ∀ b ∈ uts, iouM a b ≤ m) ∧
      ∃ L₁ L₂, pairList uds uts = L₁ ++ (i, j) :: L₂ ∧
        ∀ q ∈ L₁, iouM q.1 q.2 < m) ∧
    (∀ fuel acc m o, scanMax iouM uds uts = (m, o) → m < threshold →
      greedyLoop iouM threshold (fuel + 1) uds uts acc = some (acc.reverse, uds, uts)) ∧
    (∀ fuel acc m i j, scanMax iouM uds uts = (m, some (i, j)) → ¬ m < threshold →
      ¬ uds.isEmpty = true → ¬ uts.isEmpty = true →
      greedyLoop iouM threshold (fuel + 1) uds uts acc =
        greedyLoop iouM threshold fuel (uds.erase i) (uts.erase j) ((i, j) :: acc)) := by
  refine ⟨?_, ?_, ?_⟩
  · intro m i j h
    obtain ⟨hi, hj, hm, -, hmax, L₁, L₂, hsplit, hfirst, -⟩ := scanMax_some iouM uds uts m i j h
    exact ⟨hi, hj, hm, hmax, L₁, L₂, hsplit, hfirst⟩
  · intro fuel acc m o h hlt
    rw [greedyLoop]
    by_cases hempty : uds.isEmpty = true ∨ uts.isEmpty = true
    · rw [if_pos hempty]
    · rw [if_neg hempty]
      cases o with
      | none =>
        rw [h]
        dsimp only
        rw [if_pos hlt]
      | some p =>
        obtain ⟨a, b⟩ := p
        rw [h]
        dsimp only
        rw [if_pos hlt]
  · intro fuel acc m i j h hge h1 h2
    rw [greedyLoop]
    rw [if_neg (by rintro (hc | hc); exact h1 hc; exact h2 hc), h]
    dsimp only
    rw [if_neg hge]

/-- Relation between the greedy loop's inputs and outputs: the produced
matches pair up members of the two index lists, each index is either matched
(at most once) or left over, never both. -/
structure GreedyOut (uds uts : List ℕ) (ms : List (ℕ × ℕ))
    (uds' uts' : List ℕ) : Prop where
  mem : ∀ p ∈ ms, p.1 ∈ uds ∧ p.2 ∈ uts
  subD : uds' ⊆ uds
  subT : uts' ⊆ uts
  ndD : uds'.Nodup
  ndT : uts'.Nodup
  coverD : ∀ i ∈ uds, i ∈ uds' ∨ ∃ p ∈ ms, p.1 = i
  coverT : ∀ j ∈ uts, j ∈ uts' ∨ ∃ p ∈ ms, p.2 = j
  exclD : ∀ i ∈ uds', ¬ ∃ p ∈ ms, p.1 = i
  exclT : ∀ j ∈ uts', ¬ ∃ p ∈ ms, p.2 = j
  ndMsD : (ms.map Prod.fst).Nodup
  ndMsT : (ms.map Prod.snd).Nodup

/-- The trivial output where nothing is matched. -/
lemma GreedyOut.nil (uds uts : List ℕ) (h1 : uds.Nodup) (h2 : uts.Nodup) :
    GreedyOut uds uts [] uds uts := by
  refine ⟨?_, fun a h => h, fun a h => h, h1, h2, ?_, ?_, ?_, ?_, ?_, ?_⟩ <;> simp

lemma greedyLoop_spec (iouM : ℕ → ℕ → ℚ) (threshold : ℚ) :
    ∀ (fuel : ℕ) (uds uts : List ℕ) (acc ms : List (ℕ × ℕ)) (uds' uts' : List ℕ),
      uds.Nodup → uts.Nodup →
      greedyLoop iouM threshold fuel uds uts acc = some (ms, uds', uts') →
      ∃ new, ms = acc.reverse ++ new ∧ GreedyOut uds uts new uds' uts' := by
  intro fuel
  induction fuel with
  | zero =>
    intro uds uts acc ms uds' uts' h1 h2 h
    rw [greedyLoop] at h
    by_cases hempty : uds.isEmpty = true ∨ uts.isEmpty = true
    · rw [if_pos hempty] at h
      obtain ⟨hm, hd, ht⟩ := by
        simpa using h
      exact ⟨[], by simp [← hm], hd ▸ ht ▸ GreedyOut.nil uds uts h1 h2⟩
    · rw [if_neg hempty] at h
      exact absurd h (by simp)
  | succ fuel ih =>
    intro uds uts acc ms uds' uts' h1 h2 h
    rw [greedyLoop] at h
    by_cases hempty : uds.isEmpty = true ∨ uts.isEmpty = true
    · rw [if_pos hempty] at h
      obtain ⟨hm, hd, ht⟩ := by
        simpa using h
      exact ⟨[], by simp [← hm], hd ▸ ht ▸ GreedyOut.nil uds uts h1 h2⟩
    · rw [if_neg hempty] at h
      cases hscan : scanMax iouM uds uts with
      | mk m o =>
        rw [hscan] at h
        cases o with
        | none =>
          dsimp only at h
          by_cases hlt : m < threshold
          · rw [if_pos hlt] at h
            obtain ⟨hm, hd, ht⟩ := by
              simpa using h
            exact ⟨[], by simp [← hm], hd ▸ ht ▸ GreedyOut.nil uds uts h1 h2⟩
          · rw [if_neg hlt] at h
            exact absurd h (by simp)
        | some p =>
          obtain ⟨i, j⟩ := p
          dsimp only at h
          by_cases hlt : m < threshold
          · rw [if_pos hlt] at h
            obtain ⟨hm, hd, ht⟩ := by
              simpa using h
            exact ⟨[], by simp [← hm], hd ▸ ht ▸ GreedyOut.nil uds uts h1 h2⟩
          · rw [if_neg hlt] at h
            obtain ⟨hi, hj, -, -, -, -⟩ := scanMax_some iouM uds uts m i j hscan
            obtain ⟨new', hms, hout⟩ :=
              ih (uds.erase i) (uts.erase j) ((i, j) :: acc) ms uds' uts'
                (h1.erase i) (h2.erase j) h
            refine ⟨(i, j) :: new', ?_, ?_⟩
            · rw [hms, List.reverse_cons, List.append_assoc]
              rfl
            · refine ⟨?_, ?_, ?_, hout.ndD, hout.ndT, ?_, ?_, ?_, ?_, ?_, ?_⟩
              · rintro p hp
                rcases List.mem_cons.1 hp with rfl | hp'
                · exact ⟨hi, hj⟩
                · obtain ⟨hd, ht⟩ := hout.mem p hp'
                  exact ⟨List.erase_subset _ _ hd, List.erase_subset _ _ ht⟩
              · exact fun a ha => List.erase_subset _ _ (hout.subD ha)
              · exact fun a ha => List.erase_subset _ _ (hout.subT ha)
              · intro a ha
                by_cases hai : a = i
                · exact Or.inr ⟨(i, j), List.mem_cons_self _ _, hai.symm⟩
                · rcases hout.coverD a ((List.mem_erase_of_ne hai).2 ha) with hin | ⟨p, hp, hpe⟩
                  · exact Or.inl hin
                  · exact Or.inr ⟨p, List.mem_cons_of_mem _ hp, hpe⟩
              · intro b hb
                by_cases hbj : b = j
                · exact Or.inr ⟨(i, j), List.mem_cons_self _ _, hbj.symm⟩
                · rcases hout.coverT b ((List.mem_erase_of_ne hbj).2 hb) with hin | ⟨p, hp, hpe⟩
                  · exact Or.inl hin
                  · exact Or.inr ⟨p, List.mem_cons_of_mem _ hp, hpe⟩
              · intro a ha
                have hae : a ∈ uds.erase i := hout.subD ha
                have hane : a ≠ i := (h1.mem_erase_iff.1 hae).1
                rintro ⟨p, hp, hpe⟩
                rcases List.mem_cons.1 hp with rfl | hp'
                · exact hane hpe.symm
                · exact hout.exclD a ha ⟨p, hp', hpe⟩
              · intro b hb
                have hbe : b ∈ uts.erase j := hout.subT hb
                have hbne : b ≠ j := (h2.mem_erase_iff.1 hbe).1
                rintro ⟨p, hp, hpe⟩
                rcases List.mem_cons.1 hp with rfl | hp'
                · exact hbne hpe.symm
                · exact hout.exclT b hb ⟨p, hp', hpe⟩
              · rw [List.map_cons]
                refine List.nodup_cons.2 ⟨?_, hout.ndMsD⟩
                intro hcontra
                obtain ⟨p, hp, hpe⟩ := List.mem_map.1 hcontra
                have : p.1 ∈ uds.erase i := (hout.mem p hp).1
                exact (h1.mem_erase_iff.1 this).1 hpe
              · rw [List.map_cons]
                refine List.nodup_cons.2 ⟨?_, hout.ndMsT⟩
                intro hcontra
                obtain ⟨p, hp, hpe⟩ := List.mem_map.1 hcontra
                have : p.2 ∈ uts.erase j := (hout.mem p hp).2
                exact (h2.mem_erase_iff.1 this).1 hpe

/-- `_match` always produces a `GreedyOut` over the index ranges of its two
inputs. -/
lemma trackerMatch_spec (threshold : ℚ) (dets tracks : List Box)
    (ms : List (ℕ × ℕ)) (uds' uts' : List ℕ)
    (h : trackerMatch threshold dets tracks = some (ms, uds', uts')) :
    GreedyOut (List.range dets.length) (List.range tracks.length) ms uds' uts' := by
  rw [trackerMatch] at h
  by_cases hd : dets.isEmpty = true
  · rw [if_pos hd] at h
    rw [Option.some.injEq, Prod.mk.injEq, Prod.mk.injEq] at h
    obtain ⟨hm, hu, ht⟩ := h
    have hd0 : dets.length = 0 := by
      rwa [List.isEmpty_iff_length_eq_zero] at hd
    subst hm
    subst hu
    subst ht
    rw [hd0]
    simpa using GreedyOut.nil [] (List.range tracks.length) (by simp) (List.nodup_range _)
  · rw [if_neg hd] at h
    by_cases ht : tracks.isEmpty = true
    · rw [if_pos ht] at h
      rw [Option.some.injEq, Prod.mk.injEq, Prod.mk.injEq] at h
      obtain ⟨hm, hu, hte⟩ := h
      have ht0 : tracks.length = 0 := by
        rwa [List.isEmpty_iff_length_eq_zero] at ht
      subst hm
      subst hu
      subst hte
      rw [ht0]
      simpa using GreedyOut.nil (List.range dets.length) [] (List.nodup_range _) (by simp)
    · rw [if_neg ht] at h
      obtain ⟨new, hms, hout⟩ :=
        greedyLoop_spec _ threshold dets.length _ _ [] ms uds' uts'
          (List.nodup_range _) (List.nodup_range _) h
      simpa [hms] using hout

lemma updTrack_map_fst (ts : List (ℕ × TrackRec)) (tid : ℕ)
    (f : TrackRec → TrackRec) :
    (updTrack ts tid f).map Prod.fst = ts.map Prod.fst := by
  induction ts with
  | nil => rfl
  | cons p ts ih =>
    rw [updTrack, List.map_cons, List.map_cons, List.map_cons]
    refine congrArg₂ List.cons ?_ ih
    by_cases hp : p.1 = tid
    · rw [if_pos hp]
    · rw [if_neg hp]

lemma updTrack_mem_ne (ts : List (ℕ × TrackRec)) (tid : ℕ)
    (f : TrackRec → TrackRec) (id : ℕ) (r : TrackRec) (hne : id ≠ tid) :
    (id, r) ∈ updTrack ts tid f ↔ (id, r) ∈ ts := by
  rw [updTrack]
  constructor
  · intro h
    obtain ⟨q, hq, hqe⟩ := List.mem_map.1 h
    by_cases hqt : q.1 = tid
    · rw [if_pos hqt] at hqe
      have : id = tid := by
        rw [← hqt]
        exact (congrArg Prod.fst hqe).symm
      exact absurd this hne
    · rw [if_neg hqt] at hqe
      rw [← hqe]
      exact hq
  · intro h
    refine List.mem_map.2 ⟨(id, r), h, ?_⟩
    rw [if_neg hne]

lemma updTrack_mem_hit (ts : List (ℕ × TrackRec)) (tid : ℕ)
    (f : TrackRec → TrackRec) (r : TrackRec) (h : (tid, r) ∈ ts) :
    (tid, f r) ∈ updTrack ts tid f := by
  rw [updTrack]
  exact List.mem_map.2 ⟨(tid, r), h, by rw [if_pos rfl]⟩

lemma foldl_updTrack_map_fst {α : Type} (key : α → ℕ)
    (upd : α → TrackRec → TrackRec) :
    ∀ (ms : List α) (ts : List (ℕ × TrackRec)),
      ((ms.foldl (fun ts m => updTrack ts (key m) (upd m)) ts).map Prod.fst) =
        ts.map Prod.fst
  | [], ts => rfl
  | m :: ms, ts => by
    rw [List.foldl_cons, foldl_updTrack_map_fst key upd ms, updTrack_map_fst]

lemma foldl_updTrack_not_touched {α : Type} (key : α → ℕ)
    (upd : α → TrackRec → TrackRec) :
    ∀ (ms : List α) (ts : List (ℕ × TrackRec)) (id : ℕ) (r : TrackRec),
      (∀ m ∈ ms, key m ≠ id) →
      ((id, r) ∈ ms.foldl (fun ts m => updTrack ts (key m) (upd m)) ts ↔
        (id, r) ∈ ts)
  | [], ts, id, r, _ => Iff.rfl
  | m :: ms, ts, id, r, h => by
    rw [List.foldl_cons,
      foldl_updTrack_not_touched key upd ms _ id r
        (fun m' hm' => h m' (List.mem_cons_of_mem _ hm')),
      updTrack_mem_ne _ _ _ _ _ (Ne.symm (h m (List.mem_cons_self _ _)))]

lemma foldl_updTrack_touched {α : Type} (key : α → ℕ)
    (upd : α → TrackRec → TrackRec) (ms₁ : List α) (m0 : α) (ms₂ : List α)
    (ts : List (ℕ × TrackRec)) (id : ℕ) (r : TrackRec)
    (h1 : ∀ m ∈ ms₁, key m ≠ id) (h2 : ∀ m ∈ ms₂, key m ≠ id)
    (hk : key m0 = id) (hmem : (id, r) ∈ ts) :
    (id, upd m0 r) ∈
      (ms₁ ++ m0 :: ms₂).foldl (fun ts m => updTrack ts (key m) (upd m)) ts := by
  rw [List.foldl_append, List.foldl_cons]
  refine (foldl_updTrack_not_touched key upd ms₂ _ id _ h2).2 ?_
  have hmem1 : (id, r) ∈ ms₁.foldl (fun ts m => updTrack ts (key m) (upd m)) ts :=
    (foldl_updTrack_not_touched key upd ms₁ ts id r h1).2 hmem
  rw [← hk]
  exact updTrack_mem_hit _ (key m0) (upd m0) r (by rw [hk]; exact hmem1)

lemma mkNewTracks_fst_bounds (dets : List Box) :
    ∀ (uds : List ℕ) (n : ℕ) (p : ℕ × TrackRec),
      p ∈ mkNewTracks dets uds n → n ≤ p.1 ∧ p.1 < n + uds.length
  | [], n, p, h => absurd h (by simp [mkNewTracks])
  | di :: uds, n, p, h => by
    rw [mkNewTracks] at h
    rcases List.mem_cons.1 h with rfl | h'
    · refine ⟨le_refl _, ?_⟩
      show n < n + (di :: uds).length
      rw [List.length_cons]
      omega
    · obtain ⟨h1, h2⟩ := mkNewTracks_fst_bounds dets uds (n + 1) p h'
      refine ⟨le_trans (Nat.le_succ n) h1, ?_⟩
      rw [List.length_cons]
      omega

lemma mkNewTracks_fst_nodup (dets : List Box) :
    ∀ (uds : List ℕ) (n : ℕ), ((mkNewTracks dets uds n).map Prod.fst).Nodup
  | [], _ => by simp [mkNewTracks]
  | di :: uds, n => by
    rw [mkNewTracks, List.map_cons]
    refine List.nodup_cons.2 ⟨?_, mkNewTracks_fst_nodup dets uds (n + 1)⟩
    intro hcontra
    obtain ⟨p, hp, hpe⟩ := List.mem_map.1 hcontra
    have := (mkNewTracks_fst_bounds dets uds (n + 1) p hp).1
    omega

/-- In an association list with distinct keys, a key determines its record. -/
lemma assoc_nodup_eq :
    ∀ (l : List (ℕ × TrackRec)), (l.map Prod.fst).Nodup →
      ∀ (id : ℕ) (a b : TrackRec), (id, a) ∈ l → (id, b) ∈ l → a = b
  | [], _, id, a, b, ha, _ => absurd ha (by simp)
  | q :: l, hnd, id, a, b, ha, hb => by
    rw [List.map_cons, List.nodup_cons] at hnd
    rcases List.mem_cons.1 ha with rfl | ha'
    · rcases List.mem_cons.1 hb with heq | hb'
      · exact (congrArg Prod.snd heq.symm)
      · exact absurd (List.mem_map.2 ⟨(id, b), hb', rfl⟩) hnd.1
    · rcases List.mem_cons.1 hb with rfl | hb'
      · exact absurd (List.mem_map.2 ⟨(id, a), ha', rfl⟩) hnd.1
      · exact assoc_nodup_eq l hnd.2 id a b ha' hb'

/-- The id stored at position `k` of the track list, as computed by
`track_ids[track_idx]` in `update`. -/
lemma trackIds_getD (ts : List (ℕ × TrackRec)) (k : ℕ) (id : ℕ) (rec : TrackRec)
    (h : ts[k]? = some (id, rec)) :
    (ts.map Prod.fst).getD k 0 = id ∧ k < ts.length ∧ (id, rec) ∈ ts := by
  obtain ⟨hk, he⟩ := List.getElem?_eq_some_iff.1 h
  refine ⟨?_, hk, List.getElem?_mem h⟩
  have hk' : k < (ts.map Prod.fst).length := by
    rwa [List.length_map]
  rw [List.getD_eq_getElem?_getD, List.getElem?_eq_getElem hk']
  simp only [Option.getD_some]
  rw [List.getElem_map, he]

lemma trackIds_getD_inj (ts : List (ℕ × TrackRec))
    (hnd : (ts.map Prod.fst).Nodup) (k1 k2 : ℕ)
    (h1 : k1 < ts.length) (h2 : k2 < ts.length)
    (he : (ts.map Prod.fst).getD k1 0 = (ts.map Prod.fst).getD k2 0) : k1 = k2 := by
  have h1' : k1 < (ts.map Prod.fst).length := by rwa [List.length_map]
  have h2' : k2 < (ts.map Prod.fst).length := by rwa [List.length_map]
  rw [List.getD_eq_getElem?_getD, List.getD_eq_getElem?_getD,
    List.getElem?_eq_getElem h1', List.getElem?_eq_getElem h2'] at he
  simp only [Option.getD_some] at he
  exact (hnd.getElem_inj_iff).1 he

lemma keys_nodup_of_snd (ts : List (ℕ × TrackRec))
    (hnd : (ts.map Prod.fst).Nodup) (ms : List (ℕ × ℕ))
    (hms : (ms.map Prod.snd).Nodup) (hb : ∀ p ∈ ms, p.2 < ts.length) :
    (ms.map (fun m => (ts.map Prod.fst).getD m.2 0)).Nodup := by
  have hrw : ms.map (fun m => (ts.map Prod.fst).getD m.2 0) =
      (ms.map Prod.snd).map (fun k => (ts.map Prod.fst).getD k 0) := by
    rw [List.map_map]
    rfl
  rw [hrw]
  refine List.Nodup.map_on ?_ hms
  intro x hx y hy hxy
  obtain ⟨px, hpx, hpxe⟩ := List.mem_map.1 hx
  obtain ⟨py, hpy, hpye⟩ := List.mem_map.1 hy
  exact trackIds_getD_inj ts hnd x y (hpxe ▸ hb px hpx) (hpye ▸ hb py hpy) hxy

lemma keys_nodup_of_idx (ts : List (ℕ × TrackRec))
    (hnd : (ts.map Prod.fst).Nodup) (uts : List ℕ) (hu : uts.Nodup)
    (hb : ∀ k ∈ uts, k < ts.length) :
    (uts.map (fun k => (ts.map Prod.fst).getD k 0)).Nodup :=
  List.Nodup.map_on
    (fun x hx y hy hxy => trackIds_getD_inj ts hnd x y (hb x hx) (hb y hy) hxy) hu

lemma nodup_key_split {α : Type} (key : α → ℕ) (ms : List α) (m0 : α)
    (hmem : m0 ∈ ms) (hnd : (ms.map key).Nodup) :
    ∃ ms₁ ms₂, ms = ms₁ ++ m0 :: ms₂ ∧
      (∀ m ∈ ms₁, key m ≠ key m0) ∧ (∀ m ∈ ms₂, key m ≠ key m0) := by
  obtain ⟨ms₁, ms₂, rfl⟩ := List.append_of_mem hmem
  refine ⟨ms₁, ms₂, rfl, ?_, ?_⟩
  · rw [List.map_append] at hnd
    have hdisj := (List.nodup_append.1 hnd).2.2
    intro m hm he
    exact hdisj (List.mem_map.2 ⟨m, hm, he⟩) (by rw [List.map_cons]; exact List.mem_cons_self _ _)
  · rw [List.map_append, List.map_cons] at hnd
    have := ((List.nodup_append.1 hnd).2.1)
    have hni := List.nodup_cons.1 this
    intro m hm he
    exact hni.1 (List.mem_map.2 ⟨m, hm, he⟩)

/-- C2: across an `update` call, a matched track's hits grow by one and its
age resets to 0; an unmatched track's age grows by exactly one, and it is
deleted from the store before the same update returns exactly when the new
age exceeds `max_age`; every track position is matched or unmatched but not
both; no surviving track has `age > max_age`; and ids are fresh: every id in
the new store either existed before or is at least the old `next_id`, all
ids stay below the new `next_id`, `next_id` is monotone and ids stay
distinct — so an id, once assigned, is never reassigned to a different new
track. -/
theorem claim_C2_track_lifecycle (s : TrackerState) (dets : List Box)
    (s' : TrackerState) (ret : List (ℕ × (ℤ × ℤ × ℤ × ℤ)))
    (ms : List (ℕ × ℕ)) (uds uts : List ℕ)
    (hnd : (s.tracks.map Prod.fst).Nodup)
    (hbound : ∀ p ∈ s.tracks, p.1 < s.next_id)
    (hm : trackerMatch s.iou_threshold dets (s.tracks.map (fun p => p.2.bbox)) =
      some (ms, uds, uts))
    (h : update s dets = some (s', ret)) :
    (∀ di k id rec, (di, k) ∈ ms → s.tracks[k]? = some (id, rec) →
      (id, ⟨dets.getD di default, rec.hits + 1, 0⟩) ∈ s'.tracks) ∧
    (∀ k id rec, k ∈ uts → s.tracks[k]? = some (id, rec) →
      if rec.age + 1 ≤ s.max_age
      then (id, ⟨rec.bbox, rec.hits, rec.age + 1⟩) ∈ s'.tracks
      else ∀ r' : TrackRec, (id, r') ∉ s'.tracks) ∧
    (∀ k, k < s.tracks.length →
      ((∃ di, (di, k) ∈ ms) ∨ k ∈ uts) ∧ ¬ ((∃ di, (di, k) ∈ ms) ∧ k ∈ uts)) ∧
    (∀ p ∈ s'.tracks, p.2.age ≤ s.max_age) ∧
    (∀ p ∈ s'.tracks, (∃ r : TrackRec, (p.1, r) ∈ s.tracks) ∨ s.next_id ≤ p.1) ∧
    (∀ p ∈ s'.tracks, p.1 < s'.next_id) ∧
    s.next_id ≤ s'.next_id ∧
    (s'.tracks.map Prod.fst).Nodup := by
  have hout := trackerMatch_spec s.iou_threshold dets
    (s.tracks.map (fun p => p.2.bbox)) ms uds uts hm
  rw [List.length_map] at hout
  have hmsb : ∀ p ∈ ms, p.2 < s.tracks.length :=
    fun p hp => List.mem_range.1 (hout.mem p hp).2
  have hutb : ∀ k ∈ uts, k < s.tracks.length :=
    fun k hk => List.mem_range.1 (hout.subT hk)
  rw [update] at h
  rw [hm] at h
  simp only [Option.some.injEq, Prod.mk.injEq] at h
  obtain ⟨hs', hret⟩ := h
  subst hs'
  dsimp only
  set tids := s.tracks.map Prod.fst with htids
  set ts1 := ms.foldl (fun ts m =>
    updTrack ts (tids.getD m.2 0)
      (fun r => { bbox := dets.getD m.1 default, hits := r.hits + 1, age := 0 })) s.tracks
    with hts1
  set nts := mkNewTracks dets uds s.next_id with hnts
  set ts2 := ts1 ++ nts with hts2
  set ts3 := uts.foldl (fun ts ti =>
    updTrack ts (tids.getD ti 0) (fun r => { r with age := r.age + 1 })) ts2 with hts3
  have hfst1 : ts1.map Prod.fst = tids :=
    foldl_updTrack_map_fst (fun m : ℕ × ℕ => tids.getD m.2 0)
      (fun m r => { bbox := dets.getD m.1 default, hits := r.hits + 1, age := 0 }) ms s.tracks
  have hfst3 : ts3.map Prod.fst = tids ++ nts.map Prod.fst := by
    rw [hts3]
    rw [foldl_updTrack_map_fst (fun ti : ℕ => tids.getD ti 0)
      (fun ti r => { r with age := r.age + 1 }) uts ts2]
    rw [hts2, List.map_append, hfst1]
  have hnewb : ∀ p ∈ nts, s.next_id ≤ p.1 ∧ p.1 < s.next_id + uds.length :=
    fun p hp => mkNewTracks_fst_bounds dets uds s.next_id p hp
  have hnd3 : (ts3.map Prod.fst).Nodup := by
    rw [hfst3]
    refine List.nodup_append.2 ⟨hnd, mkNewTracks_fst_nodup dets uds s.next_id, ?_⟩
    intro a ha hanew
    obtain ⟨q, hq, hqe⟩ := List.mem_map.1 ha
    obtain ⟨p, hpn, hpe⟩ := List.mem_map.1 hanew
    have h1 : a < s.next_id := hqe ▸ hbound q hq
    have h2 : s.next_id ≤ a := hpe ▸ (hnewb p hpn).1
    omega
  have hmatched : ∀ di k id rec, (di, k) ∈ ms → s.tracks[k]? = some (id, rec) →
      (id, (⟨dets.getD di default, rec.hits + 1, 0⟩ : TrackRec)) ∈ ts3 := by
    intro di k id rec hdm hget
    obtain ⟨hkey, hklen, hmem⟩ := trackIds_getD s.tracks k id rec hget
    have hkeysnd := keys_nodup_of_snd s.tracks hnd ms hout.ndMsT hmsb
    obtain ⟨ms₁, ms₂, hsplit, hne1, hne2⟩ :=
      nodup_key_split (fun m : ℕ × ℕ => tids.getD m.2 0) ms (di, k) hdm hkeysnd
    have hin1 : (id, (⟨dets.getD di default, rec.hits + 1, 0⟩ : TrackRec)) ∈ ts1 := by
      rw [hts1, hsplit]
      exact foldl_updTrack_touched (fun m : ℕ × ℕ => tids.getD m.2 0)
        (fun m r => { bbox := dets.getD m.1 default, hits := r.hits + 1, age := 0 })
        ms₁ (di, k) ms₂ s.tracks id rec
        (fun m hm he => hne1 m hm (he.trans hkey.symm))
        (fun m hm he => hne2 m hm (he.trans hkey.symm)) hkey hmem
    have hin2 : (id, (⟨dets.getD di default, rec.hits + 1, 0⟩ : TrackRec)) ∈ ts2 :=
      List.mem_append_left _ hin1
    have hnotu : ∀ t ∈ uts, tids.getD t 0 ≠ id := by
      intro t ht he
      have htk : t = k :=
        trackIds_getD_inj s.tracks hnd t k (hutb t ht) hklen (he.trans hkey.symm)
      subst htk
      exact hout.exclT t ht ⟨(di, t), hdm, rfl⟩
    rw [hts3]
    exact (foldl_updTrack_not_touched (fun ti : ℕ => tids.getD ti 0)
      (fun ti r => { r with age := r.age + 1 }) uts ts2 id _ hnotu).2 hin2
  have hunmatched : ∀ k id rec, k ∈ uts → s.tracks[k]? = some (id, rec) →
      (id, (⟨rec.bbox, rec.hits, rec.age + 1⟩ : TrackRec)) ∈ ts3 := by
    intro k id rec hku hget
    obtain ⟨hkey, hklen, hmem⟩ := trackIds_getD s.tracks k id rec hget
    have hnotm : ∀ m ∈ ms, tids.getD m.2 0 ≠ id := by
      intro m hm he
      have hmk : m.2 = k :=
        trackIds_getD_inj s.tracks hnd m.2 k (hmsb m hm) hklen (he.trans hkey.symm)
      exact hout.exclT k hku ⟨m, hm, hmk⟩
    have hin1 : (id, rec) ∈ ts1 := by
      rw [hts1]
      exact (foldl_updTrack_not_touched (fun m : ℕ × ℕ => tids.getD m.2 0)
        (fun m r => { bbox := dets.getD m.1 default, hits := r.hits + 1, age := 0 })
        ms s.tracks id rec hnotm).2 hmem
    have hin2 : (id, rec) ∈ ts2 := List.mem_append_left _ hin1
    have hkeyu := keys_nodup_of_idx s.tracks hnd uts hout.ndT hutb
    obtain ⟨u₁, u₂, husplit, hune1, hune2⟩ :=
      nodup_key_split (fun t : ℕ => tids.getD t 0) uts k hku hkeyu
    rw [hts3, husplit]
    exact foldl_updTrack_touched (fun t : ℕ => tids.getD t 0)
      (fun t r => { r with age := r.age + 1 }) u₁ k u₂ ts2 id rec
      (fun t ht he => hune1 t ht (he.trans hkey.symm))
      (fun t ht he => hune2 t ht (he.trans hkey.symm)) hkey hin2
  refine ⟨?_, ?_, ?_, ?_, ?_, ?_, Nat.le_add_right _ _, ?_⟩
  · intro di k id rec hdm hget
    exact List.mem_filter.2 ⟨hmatched di k id rec hdm hget, by simp⟩
  · intro k id rec hku hget
    have hin3 := hunmatched k id rec hku hget
    by_cases hage : rec.age + 1 ≤ s.max_age
    · rw [if_pos hage]
      exact List.mem_filter.2 ⟨hin3, by simpa using hage⟩
    · rw [if_neg hage]
      intro r' hr'
      have hr3 : (id, r') ∈ ts3 := List.mem_of_mem_filter hr'
      have hre : r' = ⟨rec.bbox, rec.hits, rec.age + 1⟩ :=
        assoc_nodup_eq ts3 hnd3 id r' _ hr3 hin3
      have hpred := List.of_mem_filter hr'
      rw [hre] at hpred
      simp only [decide_eq_true_eq] at hpred
      exact hage hpred
  · intro k hk
    constructor
    · rcases hout.coverT k (List.mem_range.2 hk) with hin | ⟨p, hp, hpe⟩
      · exact Or.inr hin
      · refine Or.inl ⟨p.1, ?_⟩
        rw [← hpe]
        exact hp
    · rintro ⟨⟨di, hdi⟩, hku⟩
      exact hout.exclT k hku ⟨(di, k), hdi, rfl⟩
  · intro p hp
    have := List.of_mem_filter hp
    simpa using this
  · intro p hp
    have hp3 : p ∈ ts3 := List.mem_of_mem_filter hp
    have hfst : p.1 ∈ ts3.map Prod.fst := List.mem_map.2 ⟨p, hp3, rfl⟩
    rw [hfst3] at hfst
    rcases List.mem_append.1 hfst with hold | hnew
    · obtain ⟨q, hq, hqe⟩ := List.mem_map.1 hold
      refine Or.inl ⟨q.2, ?_⟩
      rw [← hqe]
      exact hq
    · obtain ⟨q, hq, hqe⟩ := List.mem_map.1 hnew
      exact Or.inr (hqe ▸ (hnewb q hq).1)
  · intro p hp
    have hp3 : p ∈ ts3 := List.mem_of_mem_filter hp
    have hfst : p.1 ∈ ts3.map Prod.fst := List.mem_map.2 ⟨p, hp3, rfl⟩
    rw [hfst3] at hfst
    rcases List.mem_append.1 hfst with hold | hnew
    · obtain ⟨q, hq, hqe⟩ := List.mem_map.1 hold
      have := hqe ▸ hbound q hq
      omega
    · obtain ⟨q, hq, hqe⟩ := List.mem_map.1 hnew
      exact hqe ▸ (hnewb q hq).2
  · have hsub : List.Sublist
        ((ts3.filter (fun p => decide (p.2.age ≤ s.max_age))).map Prod.fst)
        (ts3.map Prod.fst) := (List.filter_sublist _).map Prod.fst
    exact hnd3.sublist hsub

/-- C1: the mapping returned by `update` is exactly the `hits >= min_hits`
filter of the post-update track store; in particular every returned track id
belongs to a track whose hits counter is at least `min_hits`, and tracks
with fewer hits are never in the returned mapping. -/
theorem claim_C1_min_hits_filter (s : TrackerState) (dets : List Box)
    (s' : TrackerState) (ret : List (ℕ × (ℤ × ℤ × ℤ × ℤ)))
    (h : update s dets = some (s', ret)) :
    ret = (s'.tracks.filter (fun p => decide (s.min_hits ≤ p.2.hits))).map
        (fun p => (p.1, (pyInt p.2.bbox.x1, pyInt p.2.bbox.y1,
                         pyInt p.2.bbox.x2, pyInt p.2.bbox.y2))) ∧
    ∀ idb ∈ ret, ∃ rec : TrackRec, (idb.1, rec) ∈ s'.tracks ∧ s.min_hits ≤ rec.hits := by
  rw [update] at h
  cases hm : trackerMatch s.iou_threshold dets (s.tracks.map (fun p => p.2.bbox)) with
  | none =>
    rw [hm] at h
    exact absurd h (by simp)
  | some res =>
    obtain ⟨ms, uds, uts⟩ := res
    rw [hm] at h
    simp only [Option.some.injEq, Prod.mk.injEq] at h
    obtain ⟨hs', hret⟩ := h
    subst hs'
    subst hret
    refine ⟨rfl, ?_⟩
    intro idb hmem
    rw [List.mem_map] at hmem
    obtain ⟨p, hpf, hpe⟩ := hmem
    rw [List.mem_filter] at hpf
    refine ⟨p.2, ?_, by simpa using hpf.2⟩
    rw [← hpe]
    exact hpf.1

/-!
## Face-embedding similarity and duplicate registration

`face_service.cosine_similarity` divides the dot product by the product of
the norms; `DuplicateFaceChecker._calculate_similarity` normalizes both
encodings, dots them and clamps into `[0, 1]`;
`DuplicateFaceChecker.check_duplicate` takes the maximum similarity against
the registered encodings (strict-improvement fold from `0.0`) and flags a
duplicate when it reaches the (stricter) duplicate threshold.  Embeddings
are real vectors, so this part of the development is noncomputable.
-/

noncomputable section FaceSimilarity

/-- `np.dot` on fixed-length real vectors. -/
def dotProduct {n : ℕ} (a b : Fin n → ℝ) : ℝ := ∑ i, a i * b i

/-- `np.linalg.norm`. -/
def vnorm {n : ℕ} (a : Fin n → ℝ) : ℝ := Real.sqrt (dotProduct a a)

/-- `cosine_similarity` from `face_service.py`. -/
def cosine_similarity {n : ℕ} (embedding1 embedding2 : Fin n → ℝ) : ℝ :=
  dotProduct embedding1 embedding2 / (vnorm embedding1 * vnorm embedding2)

/-- `DuplicateFaceChecker._calculate_similarity`. -/
def calculate_similarity {n : ℕ} (encoding1 encoding2 : Fin n → ℝ) : ℝ :=
  max 0 (min 1 (dotProduct (fun i => encoding1 i / vnorm encoding1)
    (fun i => encoding2 i / vnorm encoding2)))

/-- Default duplicate-registration threshold (`DuplicateFaceChecker.__init__`). -/
def duplicate_similarity_threshold : ℝ := 7/10

/-- Default recognition matching threshold (`VideoProcessor.__init__`). -/
def recognition_threshold : ℝ := 3/5

lemma dotProduct_comm {n : ℕ} (a b : Fin n → ℝ) : dotProduct a b = dotProduct b a := by
  rw [dotProduct, dotProduct]
  exact Finset.sum_congr rfl (fun i _ => mul_comm _ _)

lemma dotProduct_self_nonneg {n : ℕ} (a : Fin n → ℝ) : 0 ≤ dotProduct a a :=
  Finset.sum_nonneg (fun i _ => mul_self_nonneg (a i))

lemma dotProduct_self_eq_sum_sq {n : ℕ} (a : Fin n → ℝ) :
    dotProduct a a = ∑ i, a i ^ 2 := by
  rw [dotProduct]
  exact Finset.sum_congr rfl (fun i _ => (pow_two (a i)).symm)

lemma vnorm_nonneg {n : ℕ} (a : Fin n → ℝ) : 0 ≤ vnorm a := Real.sqrt_nonneg _

lemma vnorm_mul_self {n : ℕ} (a : Fin n → ℝ) : vnorm a * vnorm a = dotProduct a a :=
  Real.mul_self_sqrt (dotProduct_self_nonneg a)

lemma dotProduct_self_pos {n : ℕ} (a : Fin n → ℝ) (ha : a ≠ 0) :
    0 < dotProduct a a := by
  obtain ⟨i, hi⟩ := Function.ne_iff.1 ha
  exact Finset.sum_pos' (fun j _ => mul_self_nonneg (a j))
    ⟨i, Finset.mem_univ i, mul_self_pos.2 hi⟩

lemma vnorm_pos {n : ℕ} (a : Fin n → ℝ) (ha : a ≠ 0) : 0 < vnorm a :=
  Real.sqrt_pos.2 (dotProduct_self_pos a ha)

/-- Cauchy-Schwarz in the form used for the bound. -/
lemma dotProduct_le_vnorm_mul_vnorm {n : ℕ} (a b : Fin n → ℝ) :
    dotProduct a b ≤ vnorm a * vnorm b := by
  have h := Real.sum_mul_le_sqrt_mul_sqrt Finset.univ a b
  rw [dotProduct, vnorm, vnorm, dotProduct_self_eq_sum_sq, dotProduct_self_eq_sum_sq]
  exact h

lemma neg_vnorm_mul_vnorm_le_dotProduct {n : ℕ} (a b : Fin n → ℝ) :
    -(vnorm a * vnorm b) ≤ dotProduct a b := by
  have h : ∑ i, a i * -(b i) ≤
      Real.sqrt (∑ i, a i ^ 2) * Real.sqrt (∑ i, (-(b i)) ^ 2) :=
    Real.sum_mul_le_sqrt_mul_sqrt Finset.univ a (fun i => -(b i))
  have h1 : ∑ i, a i * -(b i) = -(dotProduct a b) := by
    rw [dotProduct, ← Finset.sum_neg_distrib]
    exact Finset.sum_congr rfl (fun i _ => mul_neg _ _)
  have h2 : ∑ i, (-(b i)) ^ 2 = ∑ i, b i ^ 2 :=
    Finset.sum_congr rfl (fun i _ => neg_sq _)
  rw [h1, h2] at h
  have hva : Real.sqrt (∑ i, a i ^ 2) = vnorm a := by
    rw [vnorm, dotProduct_self_eq_sum_sq]
  have hvb : Real.sqrt (∑ i, b i ^ 2) = vnorm b := by
    rw [vnorm, dotProduct_self_eq_sum_sq]
  rw [hva, hvb] at h
  linarith

lemma cosine_similarity_self {n : ℕ} (a : Fin n → ℝ) (ha : a ≠ 0) :
    cosine_similarity a a = 1 := by
  rw [cosine_similarity, vnorm_mul_self]
  exact div_self (ne_of_gt (dotProduct_self_pos a ha))

/-- C7: `cosine_similarity` as computed by `face_service.py` is symmetric,
bounded in `[-1, 1]` for non-zero vectors, and a vector's similarity with
its own registered embedding is exactly 1. -/
theorem claim_C7_cosine_similarity {n : ℕ} (a b : Fin n → ℝ)
    (ha : a ≠ 0) (hb : b ≠ 0) :
    cosine_similarity a b = cosine_similarity b a ∧
    -1 ≤ cosine_similarity a b ∧ cosine_similarity a b ≤ 1 ∧
    cosine_similarity a a = 1 := by
  have hD : 0 < vnorm a * vnorm b := mul_pos (vnorm_pos a ha) (vnorm_pos b hb)
  refine ⟨?_, ?_, ?_, cosine_similarity_self a ha⟩
  · rw [cosine_similarity, cosine_similarity, dotProduct_comm, mul_comm]
  · rw [cosine_similarity, le_div_iff₀ hD]
    have := neg_vnorm_mul_vnorm_le_dotProduct a b
    linarith
  · rw [cosine_similarity, div_le_one hD]
    exact dotProduct_le_vnorm_mul_vnorm a b

/-- Witness for C7 at the concrete non-zero vectors `(1, 0)` and `(1, 1)`. -/
theorem claim_C7_cosine_similarity_witness :
    cosine_similarity (fun i : Fin 2 => if i = 0 then (1 : ℝ) else 0)
        (fun _ : Fin 2 => (1 : ℝ)) =
      cosine_similarity (fun _ : Fin 2 => (1 : ℝ))
        (fun i : Fin 2 => if i = 0 then (1 : ℝ) else 0) ∧
    -1 ≤ cosine_similarity (fun i : Fin 2 => if i = 0 then (1 : ℝ) else 0)
        (fun _ : Fin 2 => (1 : ℝ)) ∧
    cosine_similarity (fun i : Fin 2 => if i = 0 then (1 : ℝ) else 0)
        (fun _ : Fin 2 => (1 : ℝ)) ≤ 1 ∧
    cosine_similarity (fun i : Fin 2 => if i = 0 then (1 : ℝ) else 0)
        (fun i : Fin 2 => if i = 0 then (1 : ℝ) else 0) = 1 :=
  claim_C7_cosine_similarity
    (fun i : Fin 2 => if i = 0 then (1 : ℝ) else 0) (fun _ : Fin 2 => (1 : ℝ))
    (fun h => by
      have h0 := congrFun h 0
      norm_num at h0)
    (fun h => by
      have h0 := congrFun h 0
      norm_num at h0)

/-- The result record of `DuplicateFaceChecker.check_duplicate`. -/
structure DupResult where
  is_duplicate : Bool
  similarity : ℝ
  match_name : Option String

/-- `DuplicateFaceChecker.check_duplicate`: maximum clamped cosine
similarity of the new encoding against every registered person (running
maximum over the list, strict improvement, starting from `0.0` with no best
match), flagged as duplicate when it reaches the threshold. -/
def check_duplicate {n : ℕ} (newEncoding : Fin n → ℝ)
    (persons : List (String × (Fin n → ℝ))) (threshold : ℝ) : DupResult :=
  if persons.isEmpty then ⟨false, 0, none⟩
  else
    let best := persons.foldl
      (fun (acc : ℝ × Option String) p =>
        if acc.1 < calculate_similarity newEncoding p.2 then
          (calculate_similarity newEncoding p.2, some p.1)
        else acc) (0, none)
    ⟨decide (threshold ≤ best.1), best.1,
      if threshold ≤ best.1 then best.2 else none⟩

/-- Modelled from the spec: the person-registration flow that consults the
duplicate checker is not among the extracted sources (only the checker
itself is).  Per §6 (`register(name, embedding, photo) -> id |
DuplicateError`) and §7(d) (a duplicate registration is surfaced to the
caller as a rejected operation, not a crash, and does not mutate the
cache), a rejected registration returns the unchanged registry cache with a
rejection value. -/
def register_person {n : ℕ} (cache : List (String × (Fin n → ℝ)))
    (name : String) (encoding : Fin n → ℝ) :
    List (String × (Fin n → ℝ)) × Except String ℕ :=
  if (check_duplicate encoding cache duplicate_similarity_threshold).is_duplicate
  then (cache, Except.error "DuplicateError")
  else (cache ++ [(name, encoding)], Except.ok cache.length)

lemma foldBest_fst_ge_init {n : ℕ} (e : Fin n → ℝ) :
    ∀ (persons : List (String × (Fin n → ℝ))) (acc : ℝ × Option String),
      acc.1 ≤ (persons.foldl
        (fun (acc : ℝ × Option String) p =>
          if acc.1 < calculate_similarity e p.2 then
            (calculate_similarity e p.2, some p.1)
          else acc) acc).1
  | [], acc => le_refl _
  | p :: persons, acc => by
    rw [List.foldl_cons]
    by_cases hp : acc.1 < calculate_similarity e p.2
    · rw [if_pos hp]
      exact le_trans (le_of_lt hp)
        (foldBest_fst_ge_init e persons (calculate_similarity e p.2, some p.1))
    · rw [if_neg hp]
      exact foldBest_fst_ge_init e persons acc

lemma foldBest_fst_ge_mem {n : ℕ} (e : Fin n → ℝ) :
    ∀ (persons : List (String × (Fin n → ℝ))) (acc : ℝ × Option String)
      (p : String × (Fin n → ℝ)), p ∈ persons →
      calculate_similarity e p.2 ≤ (persons.foldl
        (fun (acc : ℝ × Option String) q =>
          if acc.1 < calculate_similarity e q.2 then
            (calculate_similarity e q.2, some q.1)
          else acc) acc).1
  | [], acc, p, hp => absurd hp (by simp)
  | q :: persons, acc, p, hp => by
    rw [List.foldl_cons]
    rcases List.mem_cons.1 hp with rfl | hp'
    · by_cases hq : acc.1 < calculate_similarity e p.2
      · rw [if_pos hq]
        exact foldBest_fst_ge_init e persons (calculate_similarity e p.2, some p.1)
      · rw [if_neg hq]
        exact le_trans (not_lt.1 hq) (foldBest_fst_ge_init e persons acc)
    · exact foldBest_fst_ge_mem e persons _ p hp'

lemma foldBest_fst_cases {n : ℕ} (e : Fin n → ℝ) :
    ∀ (persons : List (String × (Fin n → ℝ))) (acc : ℝ × Option String),
      (persons.foldl
        (fun (acc : ℝ × Option String) p =>
          if acc.1 < calculate_similarity e p.2 then
            (calculate_similarity e p.2, some p.1)
          else acc) acc).1 = acc.1 ∨
      ∃ p ∈ persons, (persons.foldl
        (fun (acc : ℝ × Option String) p =>
          if acc.1 < calculate_similarity e p.2 then
            (calculate_similarity e p.2, some p.1)
          else acc) acc).1 = calculate_similarity e p.2
  | [], acc => Or.inl rfl
  | q :: persons, acc => by
    rw [List.foldl_cons]
    by_cases hq : acc.1 < calculate_similarity e q.2
    · rw [if_pos hq]
      rcases foldBest_fst_cases e persons (calculate_similarity e q.2, some q.1) with
        h | ⟨p, hp, he⟩
      · exact Or.inr ⟨q, List.mem_cons_self _ _, h⟩
      · exact Or.inr ⟨p, List.mem_cons_of_mem _ hp, he⟩
    · rw [if_neg hq]
      rcases foldBest_fst_cases e persons acc with h | ⟨p, hp, he⟩
      · exact Or.inl h
      · exact Or.inr ⟨p, List.mem_cons_of_mem _ hp, he⟩

/-- C9: the duplicate check reports a duplicate exactly when the maximum
similarity against the registered encodings reaches the
duplicate-registration threshold; that threshold (0.7) is strictly higher
than the recognition matching threshold (0.6); and a rejected registration
is a returned rejection value, not an exception, leaving the registry cache
unchanged. -/
theorem claim_C9_duplicate_check {n : ℕ} (newEncoding : Fin n → ℝ)
    (persons : List (String × (Fin n → ℝ))) :
    ((check_duplicate newEncoding persons duplicate_similarity_threshold).is_duplicate
        = true ↔
      ∃ p ∈ persons,
        duplicate_similarity_threshold ≤ calculate_similarity newEncoding p.2) ∧
    recognition_threshold < duplicate_similarity_threshold ∧
    (∀ (name : String),
      (check_duplicate newEncoding persons duplicate_similarity_threshold).is_duplicate
          = true →
      register_person persons name newEncoding =
        (persons, Except.error "DuplicateError")) := by
  refine ⟨?_, ?_, ?_⟩
  · rw [check_duplicate]
    by_cases hempty : persons.isEmpty = true
    · rw [if_pos hempty]
      have : persons = [] := List.isEmpty_iff.1 hempty
      subst this
      simp
    · rw [if_neg hempty]
      simp only [decide_eq_true_eq]
      constructor
      · intro hle
        rcases foldBest_fst_cases newEncoding persons (0, none) with h | ⟨p, hp, he⟩
        · rw [h] at hle
          exfalso
          rw [duplicate_similarity_threshold] at hle
          norm_num at hle
        · exact ⟨p, hp, he ▸ hle⟩
      · rintro ⟨p, hp, hle⟩
        exact le_trans hle (foldBest_fst_ge_mem newEncoding persons (0, none) p hp)
  · rw [recognition_threshold, duplicate_similarity_threshold]
    norm_num
  · intro name hdup
    rw [register_person, if_pos hdup]

/-- Witness for C9: registering the all-ones vector against a registry that
already holds it is rejected with the cache unchanged. -/
theorem claim_C9_duplicate_check_witness :
    register_person [("A", fun _ : Fin 2 => (1 : ℝ))] "B" (fun _ : Fin 2 => (1 : ℝ)) =
      ([("A", fun _ : Fin 2 => (1 : ℝ))], Except.error "DuplicateError") := by
  have hv : (fun _ : Fin 2 => (1 : ℝ)) ≠ 0 := fun h => by
    have h0 := congrFun h 0
    norm_num at h0
  have hself : calculate_similarity (fun _ : Fin 2 => (1 : ℝ))
      (fun _ : Fin 2 => (1 : ℝ)) = 1 := by
    rw [calculate_similarity]
    have hd : dotProduct
        (fun i => (fun _ : Fin 2 => (1 : ℝ)) i / vnorm (fun _ : Fin 2 => (1 : ℝ)))
        (fun i => (fun _ : Fin 2 => (1 : ℝ)) i / vnorm (fun _ : Fin 2 => (1 : ℝ))) = 1 := by
      have hpos : 0 < dotProduct (fun _ : Fin 2 => (1 : ℝ)) (fun _ : Fin 2 => (1 : ℝ)) :=
        dotProduct_self_pos _ hv
      have hN := vnorm_mul_self (fun _ : Fin 2 => (1 : ℝ))
      rw [dotProduct]
      have hterm : ∀ i : Fin 2,
          (fun _ : Fin 2 => (1 : ℝ)) i / vnorm (fun _ : Fin 2 => (1 : ℝ)) *
            ((fun _ : Fin 2 => (1 : ℝ)) i / vnorm (fun _ : Fin 2 => (1 : ℝ))) =
          (fun _ : Fin 2 => (1 : ℝ)) i * (fun _ : Fin 2 => (1 : ℝ)) i /
            (vnorm (fun _ : Fin 2 => (1 : ℝ)) * vnorm (fun _ : Fin 2 => (1 : ℝ))) :=
        fun i => by ring
      rw [Finset.sum_congr rfl (fun i _ => hterm i), ← Finset.sum_div, hN]
      exact div_self (ne_of_gt hpos)
    rw [hd]
    norm_num
  refine (claim_C9_duplicate_check (fun _ : Fin 2 => (1 : ℝ))
      [("A", fun _ : Fin 2 => (1 : ℝ))]).2.2 "B" ?_
  refine (claim_C9_duplicate_check (fun _ : Fin 2 => (1 : ℝ))
      [("A", fun _ : Fin 2 => (1 : ℝ))]).1.2 ?_
  refine ⟨("A", fun _ : Fin 2 => (1 : ℝ)), List.mem_cons_self _ _, ?_⟩
  rw [hself, duplicate_similarity_threshold]
  norm_num

end FaceSimilarity

section ConcreteEvaluation

attribute [local semireducible] Rat.add Rat.sub Rat.mul Rat.inv

/-- Witness for C3 (amended) at a concrete tie: detections `(0,0,10,5)` and
`(0,0,10,20)` both have IoU `1/2` with track `(0,0,10,10)`; the scan's
maximum is `1/2`, and with threshold `3/5 > 1/2` the loop stops without
matching. -/
theorem claim_C3_greedy_matching_witness :
    (∀ a ∈ [0, 1], ∀ b ∈ [0],
      (fun i j => iou (([⟨0, 0, 10, 5⟩, ⟨0, 0, 10, 20⟩] : List Box).getD i default)
          (([⟨0, 0, 10, 10⟩] : List Box).getD j default)) a b ≤ 1/2) ∧
    greedyLoop
      (fun i j => iou (([⟨0, 0, 10, 5⟩, ⟨0, 0, 10, 20⟩] : List Box).getD i default)
        (([⟨0, 0, 10, 10⟩] : List Box).getD j default)) (3/5) 1 [0, 1] [0] [] =
      some ([], [0, 1], [0]) :=
  ⟨((claim_C3_greedy_matching
      (fun i j => iou (([⟨0, 0, 10, 5⟩, ⟨0, 0, 10, 20⟩] : List Box).getD i default)
        (([⟨0, 0, 10, 10⟩] : List Box).getD j default)) (3/10) [0, 1] [0]).1
      (1/2) 0 0 (by decide)).2.2.2.1,
   (claim_C3_greedy_matching
      (fun i j => iou (([⟨0, 0, 10, 5⟩, ⟨0, 0, 10, 20⟩] : List Box).getD i default)
        (([⟨0, 0, 10, 10⟩] : List Box).getD j default)) (3/5) [0, 1] [0]).2.1
      0 [] (1/2) (some (0, 0)) (by decide) (by decide)⟩

/-- Witness for C2 at a concrete update: the single track, matched by an
identical detection, ends with hits 2 and age 0, and all surviving tracks
respect the age bound. -/
theorem claim_C2_track_lifecycle_witness :
    ((1 : ℕ), ({ bbox := ⟨0, 0, 10, 10⟩, hits := 2, age := 0 } : TrackRec)) ∈
      [(1, ({ bbox := ⟨0, 0, 10, 10⟩, hits := 2, age := 0 } : TrackRec))] ∧
    ∀ p ∈ [((1 : ℕ), ({ bbox := ⟨0, 0, 10, 10⟩, hits := 2, age := 0 } : TrackRec))],
      p.2.age ≤ 30 :=
  ⟨(claim_C2_track_lifecycle
      { max_age := 30, min_hits := 1, iou_threshold := 3/10,
        tracks := [(1, ⟨⟨0, 0, 10, 10⟩, 1, 0⟩)], next_id := 2, frame_count := 1 }
      [⟨0, 0, 10, 10⟩]
      { max_age := 30, min_hits := 1, iou_threshold := 3/10,
        tracks := [(1, ⟨⟨0, 0, 10, 10⟩, 2, 0⟩)], next_id := 2, frame_count := 2 }
      [(1, (0, 0, 10, 10))] [(0, 0)] [] []
      (by decide) (by decide) (by decide) (by decide)).1
      0 0 1 ⟨⟨0, 0, 10, 10⟩, 1, 0⟩ (by decide) (by decide),
   (claim_C2_track_lifecycle
      { max_age := 30, min_hits := 1, iou_threshold := 3/10,
        tracks := [(1, ⟨⟨0, 0, 10, 10⟩, 1, 0⟩)], next_id := 2, frame_count := 1 }
      [⟨0, 0, 10, 10⟩]
      { max_age := 30, min_hits := 1, iou_threshold := 3/10,
        tracks := [(1, ⟨⟨0, 0, 10, 10⟩, 2, 0⟩)], next_id := 2, frame_count := 2 }
      [(1, (0, 0, 10, 10))] [(0, 0)] [] []
      (by decide) (by decide) (by decide) (by decide)).2.2.2.1⟩

/-- Counterexample to C3 as stated: detections `d0 = (0,0,10,5)` (area 50)
and `d1 = (0,0,10,20)` (area 200) both have IoU exactly `1/2 ≥ 0.3` with the
single track `(0,0,10,10)`, yet `_match` selects detection 0 — the
smaller-area one — and leaves the larger detection unmatched, refuting the
claimed larger-area tie-break. -/
theorem claim_C3_counterexample :
    trackerMatch (3/10) [⟨0, 0, 10, 5⟩, ⟨0, 0, 10, 20⟩] [⟨0, 0, 10, 10⟩] =
      some ([(0, 0)], [1], []) ∧
    iou ⟨0, 0, 10, 5⟩ ⟨0, 0, 10, 10⟩ = iou ⟨0, 0, 10, 20⟩ ⟨0, 0, 10, 10⟩ ∧
    box_area ⟨0, 0, 10, 5⟩ < box_area ⟨0, 0, 10, 20⟩ ∧
    (3/10 : ℚ) ≤ iou ⟨0, 0, 10, 20⟩ ⟨0, 0, 10, 10⟩ := by
  refine ⟨?_, ?_, ?_, ?_⟩ <;> decide

/-- Witness for C1: a one-track store matched by an identical detection is
returned (hits 2 ≥ min_hits 1) and equals the filter of the new store. -/
theorem claim_C1_min_hits_filter_witness :
    [((1 : ℕ), ((0 : ℤ), (0 : ℤ), (10 : ℤ), (10 : ℤ)))] =
      (([(1, ({ bbox := ⟨0, 0, 10, 10⟩, hits := 2, age := 0 } : TrackRec))]).filter
          (fun p => decide ((1 : ℕ) ≤ p.2.hits))).map
        (fun p => (p.1, (pyInt p.2.bbox.x1, pyInt p.2.bbox.y1,
                         pyInt p.2.bbox.x2, pyInt p.2.bbox.y2))) ∧
    ∀ idb ∈ [((1 : ℕ), ((0 : ℤ), (0 : ℤ), (10 : ℤ), (10 : ℤ)))],
      ∃ rec : TrackRec,
        (idb.1, rec) ∈ [(1, ({ bbox := ⟨0, 0, 10, 10⟩, hits := 2, age := 0 } : TrackRec))] ∧
        (1 : ℕ) ≤ rec.hits :=
  claim_C1_min_hits_filter
    { max_age := 30, min_hits := 1, iou_threshold := 3/10,
      tracks := [(1, ⟨⟨0, 0, 10, 10⟩, 1, 0⟩)], next_id := 2, frame_count := 1 }
    [⟨0, 0, 10, 10⟩]
    { max_age := 30, min_hits := 1, iou_threshold := 3/10,
      tracks := [(1, ⟨⟨0, 0, 10, 10⟩, 2, 0⟩)], next_id := 2, frame_count := 2 }
    [(1, (0, 0, 10, 10))]
    (by decide)

/-- Witness for C10: the degenerate box `(0,10,10,0)` (negative height) has
a non-positive union with `(0,0,10,10)`, and the matrix entry is 0. -/
theorem claim_C10_iou_batch_total_witness :
    (∀ row ∈ iou_batch [(⟨0, 0, 10, 10⟩ : Box)] [(⟨0, 10, 10, 0⟩ : Box)],
      ∀ v ∈ row, 0 ≤ v ∧ v ≤ 1) ∧
    iou ⟨0, 0, 10, 10⟩ ⟨0, 10, 10, 0⟩ = 0 ∧
    iou ⟨0, 0, 10, 10⟩ ⟨0, 10, 10, 0⟩ = iou ⟨0, 10, 10, 0⟩ ⟨0, 0, 10, 10⟩ :=
  ⟨(claim_C10_iou_batch_total [⟨0, 0, 10, 10⟩] [⟨0, 10, 10, 0⟩]).1,
   (claim_C10_iou_batch_total [] []).2.1 ⟨0, 0, 10, 10⟩ ⟨0, 10, 10, 0⟩ (by decide),
   (claim_C10_iou_batch_total [] []).2.2 ⟨0, 0, 10, 10⟩ ⟨0, 10, 10, 0⟩⟩

/-- Counterexample to C4 as stated: in `detect.py`, a track whose state
machine has decided Unknown (it emitted an `unauthorized` event at
`t = 100`) is later assigned the registered name "Alice" at `t = 101` —
the stored identity verdict changes after the Unknown decision. -/
theorem claim_C4_counterexample :
    (dStep
        { name := "Unknown", firstSeen := 96, lastSeen := 96, lastLog := 0,
          lastPhoneLog := 0, faceAttempts := 0, hasFaceSeen := true }
        { t := 100, cropOk := false, facesFound := false, identResult := "Unknown",
          bbox := ⟨0, 0, 1, 1⟩, phones := [] }).2 = [DEvent.unauthorized] ∧
    (dStep
        { name := "Unknown", firstSeen := 96, lastSeen := 96, lastLog := 0,
          lastPhoneLog := 0, faceAttempts := 0, hasFaceSeen := true }
        { t := 100, cropOk := false, facesFound := false, identResult := "Unknown",
          bbox := ⟨0, 0, 1, 1⟩, phones := [] }).1.name = "Unknown" ∧
    (dStep
      (dStep
        { name := "Unknown", firstSeen := 96, lastSeen := 96, lastLog := 0,
          lastPhoneLog := 0, faceAttempts := 0, hasFaceSeen := true }
        { t := 100, cropOk := false, facesFound := false, identResult := "Unknown",
          bbox := ⟨0, 0, 1, 1⟩, phones := [] }).1
      { t := 101, cropOk := true, facesFound := true, identResult := "Alice",
        bbox := ⟨0, 0, 1, 1⟩, phones := [] }).1.name = "Alice" := by
  refine ⟨?_, ?_, ?_⟩ <;> decide

end ConcreteEvaluation

end VideoAnalytics
